import Mathlib

/-!
# Verification of the api-gateway request pipeline

A shallow embedding, in Lean, of the core algorithmic components of the
api-gateway repository: the five rate limiters, the load balancers, the
per-backend circuit breaker, and the middleware pipeline that composes
them. Each definition mirrors one TypeScript function of the source;
theorems below settle the specification claims against these definitions.

Conventions used throughout the embedding:
* `Date.now()` timestamps are integers (milliseconds), passed explicitly
  to every operation that reads the clock.
* JavaScript number arithmetic on non-integers (token counts, queue
  sizes, window weights) is modelled exactly by unreduced fractions
  `Frac` over `Int`; `Frac.toQ` interprets them in `ℚ` for proofs.
* Mutable objects become explicit state passed in and out of each
  operation; JavaScript `Map`s become association lists or functions.
-/

namespace ApiGateway

/-! ## Exact fraction arithmetic for JavaScript numbers

`Frac` is an unreduced fraction of integers. All fractions built by the
models keep a positive denominator; lemmas carry that as a hypothesis.
The operations avoid `ℚ`'s gcd normalisation so that every model is
evaluable by `decide`. -/

structure Frac where
  num : Int
  den : Int
deriving DecidableEq, Repr

def Frac.ofInt (n : Int) : Frac := ⟨n, 1⟩

def Frac.add (a b : Frac) : Frac := ⟨a.num * b.den + b.num * a.den, a.den * b.den⟩

def Frac.sub (a b : Frac) : Frac := ⟨a.num * b.den - b.num * a.den, a.den * b.den⟩

def Frac.mul (a b : Frac) : Frac := ⟨a.num * b.num, a.den * b.den⟩

def Frac.div (a b : Frac) : Frac := ⟨a.num * b.den, a.den * b.num⟩

def Frac.blt (a b : Frac) : Bool := decide (a.num * b.den < b.num * a.den)

def Frac.ble (a b : Frac) : Bool := decide (a.num * b.den ≤ b.num * a.den)

/-- `Math.min` on two numbers. -/
def Frac.minF (a b : Frac) : Frac := if a.blt b then a else b

/-- `Math.max` on two numbers. -/
def Frac.maxF (a b : Frac) : Frac := if a.blt b then b else a

/-- `Math.floor`, computable on unreduced fractions. -/
def Frac.floorF (f : Frac) : Int := f.num.fdiv f.den

/-- `Math.ceil`, computable on unreduced fractions. -/
def Frac.ceilF (f : Frac) : Int := -((-f.num).fdiv f.den)

/-- Interpretation of a fraction as a rational number. -/
def Frac.toQ (f : Frac) : ℚ := (f.num : ℚ) / (f.den : ℚ)

theorem Frac.toQ_ofInt (n : Int) : (Frac.ofInt n).toQ = (n : ℚ) := by
  simp [Frac.ofInt, Frac.toQ]

theorem Frac.toQ_add (a b : Frac) (ha : a.den ≠ 0) (hb : b.den ≠ 0) :
    (a.add b).toQ = a.toQ + b.toQ := by
  have ha' : (a.den : ℚ) ≠ 0 := Int.cast_ne_zero.mpr ha
  have hb' : (b.den : ℚ) ≠ 0 := Int.cast_ne_zero.mpr hb
  simp only [Frac.add, Frac.toQ]
  push_cast
  field_simp

theorem Frac.toQ_sub (a b : Frac) (ha : a.den ≠ 0) (hb : b.den ≠ 0) :
    (a.sub b).toQ = a.toQ - b.toQ := by
  have ha' : (a.den : ℚ) ≠ 0 := Int.cast_ne_zero.mpr ha
  have hb' : (b.den : ℚ) ≠ 0 := Int.cast_ne_zero.mpr hb
  simp only [Frac.sub, Frac.toQ]
  push_cast
  field_simp
  ring

theorem Frac.toQ_mul (a b : Frac) (ha : a.den ≠ 0) (hb : b.den ≠ 0) :
    (a.mul b).toQ = a.toQ * b.toQ := by
  have ha' : (a.den : ℚ) ≠ 0 := Int.cast_ne_zero.mpr ha
  have hb' : (b.den : ℚ) ≠ 0 := Int.cast_ne_zero.mpr hb
  simp only [Frac.mul, Frac.toQ]
  push_cast
  field_simp

theorem Frac.toQ_div (a b : Frac) (ha : a.den ≠ 0) (hb : b.den ≠ 0)
    (hn : b.num ≠ 0) : (a.div b).toQ = a.toQ / b.toQ := by
  have ha' : (a.den : ℚ) ≠ 0 := Int.cast_ne_zero.mpr ha
  have hb' : (b.den : ℚ) ≠ 0 := Int.cast_ne_zero.mpr hb
  have hn' : (b.num : ℚ) ≠ 0 := Int.cast_ne_zero.mpr hn
  simp only [Frac.div, Frac.toQ]
  push_cast
  field_simp

theorem Frac.blt_iff (a b : Frac) (ha : 0 < a.den) (hb : 0 < b.den) :
    a.blt b = true ↔ a.toQ < b.toQ := by
  have ha' : (0 : ℚ) < a.den := by exact_mod_cast ha
  have hb' : (0 : ℚ) < b.den := by exact_mod_cast hb
  rw [Frac.blt, decide_eq_true_eq, Frac.toQ, Frac.toQ, div_lt_div_iff ha' hb']
  exact_mod_cast Iff.rfl

theorem Frac.ble_iff (a b : Frac) (ha : 0 < a.den) (hb : 0 < b.den) :
    a.ble b = true ↔ a.toQ ≤ b.toQ := by
  have ha' : (0 : ℚ) < a.den := by exact_mod_cast ha
  have hb' : (0 : ℚ) < b.den := by exact_mod_cast hb
  rw [Frac.ble, decide_eq_true_eq, Frac.toQ, Frac.toQ, div_le_div_iff ha' hb']
  exact_mod_cast Iff.rfl

theorem Frac.floorF_eq (f : Frac) (h : 0 < f.den) : f.floorF = ⌊f.toQ⌋ := by
  obtain ⟨d, hd⟩ : ∃ d : ℕ, f.den = (d : ℤ) := ⟨f.den.toNat, (Int.toNat_of_nonneg h.le).symm⟩
  rw [Frac.floorF, Frac.toQ, Int.fdiv_eq_ediv _ h.le, hd]
  push_cast
  exact (Rat.floor_intCast_div_natCast f.num d).symm

theorem Frac.toQ_neg (f : Frac) : (Frac.mk (-f.num) f.den).toQ = -f.toQ := by
  simp [Frac.toQ, neg_div]

theorem Frac.ceilF_eq (f : Frac) (h : 0 < f.den) : f.ceilF = ⌈f.toQ⌉ := by
  have h2 : (Frac.mk (-f.num) f.den).floorF = ⌊(Frac.mk (-f.num) f.den).toQ⌋ :=
    Frac.floorF_eq _ h
  rw [Frac.ceilF]
  have h3 : -f.num = (Frac.mk (-f.num) f.den).num := rfl
  rw [h3]
  show -(Frac.mk (-f.num) f.den).floorF = ⌈f.toQ⌉
  rw [h2, Frac.toQ_neg, ← Int.ceil_neg, neg_neg]

theorem Frac.toQ_minF (a b : Frac) (ha : 0 < a.den) (hb : 0 < b.den) :
    (a.minF b).toQ = min a.toQ b.toQ := by
  rw [Frac.minF]
  by_cases h : a.blt b = true
  · rw [if_pos h]
    exact (min_eq_left ((Frac.blt_iff a b ha hb).mp h).le).symm
  · rw [if_neg h]
    have hnot : ¬ a.toQ < b.toQ := fun hc => h ((Frac.blt_iff a b ha hb).mpr hc)
    exact (min_eq_right (not_lt.mp hnot)).symm

/-- One is at most the ceiling of any positive fraction
(`Math.ceil` of a positive number is at least 1). -/
theorem Frac.one_le_ceilF (f : Frac) (hd : 0 < f.den) (hpos : 0 < f.toQ) :
    1 ≤ f.ceilF := by
  rw [Frac.ceilF_eq f hd]
  exact Int.ceil_pos.mpr hpos

/-! ## Rate limiters (`src/rate-limiters/`)

The uniform decision record of `rate-limiters/types.ts`. The `limit` and
`remaining` fields and every `retryAfter` the five algorithms produce are
integer-valued, so they are modelled as `Int`. -/

structure RateLimitResult where
  allowed : Bool
  limit : Int
  remaining : Int
  retryAfter : Option Int := none
deriving DecidableEq, Repr

/-- Pointwise update of a function-backed map (a JavaScript `Map` whose
absent keys read as a default). -/
def setFn {α β : Type} [DecidableEq α] (m : α → β) (k : α) (v : β) : α → β :=
  fun x => if x = k then v else m x

/-! ### Fixed window (`fixed-window.ts`)

The JavaScript map is keyed by the string `key + ":" + windowNumber`;
that string determines the pair `(key, windowNumber)` uniquely (the
window number is the colon-free suffix after the last colon), so the
model keys the association list by the pair. Insertion order is kept,
as in a JavaScript `Map`. -/

structure FixedWindowEntry where
  count : Int
  expiresAt : Int
deriving DecidableEq, Repr

abbrev FixedWindowMap := List ((String × Int) × FixedWindowEntry)

def fwFind (m : FixedWindowMap) (k : String × Int) : Option FixedWindowEntry :=
  (m.find? (fun e => e.1 == k)).map (fun e => e.2)

def fwSet (m : FixedWindowMap) (k : String × Int) (v : FixedWindowEntry) : FixedWindowMap :=
  if m.any (fun e => e.1 == k) then m.map (fun e => if e.1 == k then (k, v) else e)
  else m ++ [(k, v)]

/-- `cleanup()`: drop every window whose expiry lies strictly in the past. -/
def fwCleanup (m : FixedWindowMap) (now : Int) : FixedWindowMap :=
  m.filter (fun e => !decide (e.2.expiresAt < now))

structure FixedWindowConfig where
  maxRequests : Int
  windowMs : Int
deriving DecidableEq, Repr

/-- The branch of `consume` taken when the current window is absent or
expired: clean up, then allocate a fresh zero counter for this window. -/
def fwFresh (cfg : FixedWindowConfig) (windows : FixedWindowMap)
    (windowKey : String × Int) (now : Int) : FixedWindowMap × FixedWindowEntry :=
  let cleaned := fwCleanup windows now
  let fresh : FixedWindowEntry := ⟨0, (windowKey.2 + 1) * cfg.windowMs⟩
  (fwSet cleaned windowKey fresh, fresh)

/-- The tail of `consume`: `window.count++` followed by the
allow/deny decision. -/
def fwFinish (cfg : FixedWindowConfig) (p : FixedWindowMap × FixedWindowEntry)
    (windowKey : String × Int) (now : Int) : RateLimitResult × FixedWindowMap :=
  let w2 : FixedWindowEntry := ⟨p.2.count + 1, p.2.expiresAt⟩
  let windows2 := fwSet p.1 windowKey w2
  if cfg.maxRequests < w2.count then
    ({ allowed := false, limit := cfg.maxRequests, remaining := 0,
       retryAfter := some (Frac.ceilF ⟨w2.expiresAt - now, 1000⟩) }, windows2)
  else
    ({ allowed := true, limit := cfg.maxRequests,
       remaining := cfg.maxRequests - w2.count }, windows2)

/-- The head of `consume`: fetch the entry for the current window,
replacing it by a fresh one when absent or expired. -/
def fwLookup (cfg : FixedWindowConfig) (windows : FixedWindowMap)
    (windowKey : String × Int) (now : Int) : FixedWindowMap × FixedWindowEntry :=
  match fwFind windows windowKey with
  | none => fwFresh cfg windows windowKey now
  | some w => if w.expiresAt < now then fwFresh cfg windows windowKey now else (windows, w)

def FixedWindowRateLimiter.consume (cfg : FixedWindowConfig) (windows : FixedWindowMap)
    (key : String) (now : Int) : RateLimitResult × FixedWindowMap :=
  let windowKey := (key, now.fdiv cfg.windowMs)
  fwFinish cfg (fwLookup cfg windows windowKey now) windowKey now

/-- Every entry stored under `(key, i)` was created with
`expiresAt = (i + 1) * windowMs`. -/
def FixedWindowInv (cfg : FixedWindowConfig) (m : FixedWindowMap) : Prop :=
  ∀ e ∈ m, e.2.expiresAt = (e.1.2 + 1) * cfg.windowMs

theorem fixedWindowInv_nil (cfg : FixedWindowConfig) : FixedWindowInv cfg [] := by
  intro e he
  cases he

theorem fixedWindowInv_cleanup (cfg : FixedWindowConfig) (m : FixedWindowMap) (now : Int)
    (h : FixedWindowInv cfg m) : FixedWindowInv cfg (fwCleanup m now) := by
  intro e he
  exact h e (List.mem_of_mem_filter he)

theorem fixedWindowInv_set (cfg : FixedWindowConfig) (m : FixedWindowMap)
    (k : String × Int) (v : FixedWindowEntry) (h : FixedWindowInv cfg m)
    (hv : v.expiresAt = (k.2 + 1) * cfg.windowMs) : FixedWindowInv cfg (fwSet m k v) := by
  intro e he
  rw [fwSet] at he
  by_cases hc : m.any (fun e => e.1 == k) = true
  · rw [if_pos hc] at he
    obtain ⟨x, hx, hxe⟩ := List.mem_map.mp he
    by_cases hk : (x.1 == k) = true
    · rw [if_pos hk] at hxe
      subst hxe
      exact hv
    · rw [if_neg hk] at hxe
      subst hxe
      exact h x hx
  · rw [if_neg hc] at he
    rcases List.mem_append.mp he with hm | hm
    · exact h e hm
    · rw [List.mem_singleton.mp hm]
      exact hv

theorem fwFind_mem (m : FixedWindowMap) (k : String × Int) (w : FixedWindowEntry)
    (h : fwFind m k = some w) : (k, w) ∈ m := by
  rw [fwFind] at h
  obtain ⟨e, he, he2⟩ := Option.map_eq_some'.mp h
  have hp := List.find?_some he
  have hmem := List.mem_of_find?_eq_some he
  have h1 : e.1 = k := by simpa using hp
  have : e = (k, w) := by
    cases e
    simp only at he2 h1
    rw [h1, he2]
  rw [← this]
  exact hmem

/-- The entry `fwLookup` hands to the tail satisfies the expiry
invariant, and so does the map it returns. -/
theorem fwLookup_spec (cfg : FixedWindowConfig) (m : FixedWindowMap)
    (windowKey : String × Int) (now : Int) (h : FixedWindowInv cfg m) :
    FixedWindowInv cfg (fwLookup cfg m windowKey now).1 ∧
    (fwLookup cfg m windowKey now).2.expiresAt = (windowKey.2 + 1) * cfg.windowMs := by
  rw [fwLookup]
  have hfresh : FixedWindowInv cfg (fwFresh cfg m windowKey now).1 ∧
      (fwFresh cfg m windowKey now).2.expiresAt = (windowKey.2 + 1) * cfg.windowMs :=
    ⟨fixedWindowInv_set _ _ _ _ (fixedWindowInv_cleanup _ _ _ h) rfl, rfl⟩
  rcases hf : fwFind m windowKey with _ | w
  · exact hfresh
  · have hw : w.expiresAt = (windowKey.2 + 1) * cfg.windowMs :=
      h _ (fwFind_mem m _ w hf)
    by_cases hexp : w.expiresAt < now
    · simpa only [if_pos hexp] using hfresh
    · simp only [if_neg hexp]
      exact ⟨h, hw⟩

/-- `consume` preserves the expiry invariant of the fixed-window map. -/
theorem fixedWindowInv_consume (cfg : FixedWindowConfig) (m : FixedWindowMap)
    (key : String) (now : Int) (h : FixedWindowInv cfg m) :
    FixedWindowInv cfg (FixedWindowRateLimiter.consume cfg m key now).2 := by
  rw [FixedWindowRateLimiter.consume]
  obtain ⟨h1, h2⟩ := fwLookup_spec cfg m (key, now.fdiv cfg.windowMs) now h
  rw [fwFinish]
  split
  · exact fixedWindowInv_set _ _ _ _ h1 h2
  · exact fixedWindowInv_set _ _ _ _ h1 h2

/-- A positive amount of time divided into seconds rounds up to at
least one second. -/
theorem one_le_ceil_ms (d : Int) (hd : 0 < d) : 1 ≤ Frac.ceilF ⟨d, 1000⟩ := by
  refine Frac.one_le_ceilF _ (by norm_num) ?_
  rw [Frac.toQ]
  have hd' : (0 : ℚ) < (d : ℚ) := by exact_mod_cast hd
  positivity

/-- Fixed window: a denied `consume` reports `remaining = 0` and a
`retryAfter` of at least one second. -/
theorem fixedWindow_denied (cfg : FixedWindowConfig) (m : FixedWindowMap)
    (key : String) (now : Int) (hW : 0 < cfg.windowMs) (hinv : FixedWindowInv cfg m)
    (hden : (FixedWindowRateLimiter.consume cfg m key now).1.allowed = false) :
    (FixedWindowRateLimiter.consume cfg m key now).1.remaining = 0 ∧
    ∃ r, (FixedWindowRateLimiter.consume cfg m key now).1.retryAfter = some r ∧ 1 ≤ r := by
  rw [FixedWindowRateLimiter.consume] at hden ⊢
  obtain ⟨-, h2⟩ := fwLookup_spec cfg m (key, now.fdiv cfg.windowMs) now hinv
  have hnow : now < (fwLookup cfg m (key, now.fdiv cfg.windowMs) now).2.expiresAt := by
    rw [h2]
    rw [Int.fdiv_eq_ediv _ hW.le]
    exact Int.lt_ediv_add_one_mul_self now hW
  rw [fwFinish] at hden ⊢
  split
  · refine ⟨rfl, _, rfl, one_le_ceil_ms _ ?_⟩
    show 0 < (fwLookup cfg m (key, now.fdiv cfg.windowMs) now).2.expiresAt - now
    omega
  · rename_i hc
    rw [if_neg hc] at hden
    exact absurd hden (by simp)

/-! ### Sliding log (`sliding-log.ts`) -/

structure SlidingLogConfig where
  maxRequests : Int
  windowMs : Int
deriving DecidableEq, Repr

def SlidingLogRateLimiter.consume (cfg : SlidingLogConfig) (logs : String → List Int)
    (key : String) (now : Int) : RateLimitResult × (String → List Int) :=
  let windowStart := now - cfg.windowMs
  let timestamps := (logs key).filter (fun t => decide (windowStart < t))
  if cfg.maxRequests ≤ (timestamps.length : Int) then
    -- `timestamps[0]`; the list is non-empty whenever `maxRequests ≥ 1`
    let oldestInWindows := timestamps.headD 0
    let retryAfter := Frac.ceilF ⟨oldestInWindows + cfg.windowMs - now, 1000⟩
    ({ allowed := false, limit := cfg.maxRequests, remaining := 0,
       retryAfter := some (max retryAfter 1) }, setFn logs key timestamps)
  else
    let timestamps2 := timestamps ++ [now]
    ({ allowed := true, limit := cfg.maxRequests,
       remaining := cfg.maxRequests - (timestamps2.length : Int) }, setFn logs key timestamps2)

/-- Sliding log: a denied `consume` reports `remaining = 0` and a
`retryAfter` of at least one second (the source clamps with
`Math.max(retryAfter, 1)`). -/
theorem slidingLog_denied (cfg : SlidingLogConfig) (logs : String → List Int)
    (key : String) (now : Int)
    (hden : (SlidingLogRateLimiter.consume cfg logs key now).1.allowed = false) :
    (SlidingLogRateLimiter.consume cfg logs key now).1.remaining = 0 ∧
    ∃ r, (SlidingLogRateLimiter.consume cfg logs key now).1.retryAfter = some r ∧ 1 ≤ r := by
  rw [SlidingLogRateLimiter.consume] at hden ⊢
  split
  · exact ⟨rfl, _, rfl, le_max_right _ 1⟩
  · rename_i hc
    rw [if_neg hc] at hden
    exact absurd hden (by simp)

/-! ### Sliding counter (`sliding-counter.ts`)

The JavaScript map is keyed by the strings `key + ":current"` and
`key + ":previous"`; these determine the pair (key, tag) uniquely, so
the model uses a function map over `String × Bool` with `true` for
`:current` and `false` for `:previous`. -/

structure SlidingCounterEntry where
  count : Int
  windowStart : Int
deriving DecidableEq, Repr

structure SlidingCounterConfig where
  maxRequests : Int
  windowMs : Int
deriving DecidableEq, Repr

abbrev SlidingCounterMap := (String × Bool) → Option SlidingCounterEntry

/-- The window-rotation block of `consume`, executed when the stored
current window is absent or stale. Returns the updated map, the fresh
current entry, and the local `previous` variable. -/
def scRotate (windows : SlidingCounterMap) (key : String)
    (current0 previous0 : Option SlidingCounterEntry)
    (currentWindowStart previousWindowStart : Int) :
    SlidingCounterMap × SlidingCounterEntry × Option SlidingCounterEntry :=
  let freshPrev : SlidingCounterEntry := ⟨0, previousWindowStart⟩
  let p :=
    match current0 with
    | some c =>
      if c.windowStart = previousWindowStart then
        (setFn windows (key, false) (some c), some c)
      else
        match previous0 with
        | none => (setFn windows (key, false) (some freshPrev), some freshPrev)
        | some p0 =>
          if p0.windowStart ≠ previousWindowStart then
            (setFn windows (key, false) (some freshPrev), some freshPrev)
          else (windows, previous0)
    | none =>
      match previous0 with
      | none => (setFn windows (key, false) (some freshPrev), some freshPrev)
      | some p0 =>
        if p0.windowStart ≠ previousWindowStart then
          (setFn windows (key, false) (some freshPrev), some freshPrev)
        else (windows, previous0)
  let c1 : SlidingCounterEntry := ⟨0, currentWindowStart⟩
  (setFn p.1 (key, true) (some c1), c1, p.2)

def SlidingCounterRateLimiter.consume (cfg : SlidingCounterConfig)
    (windows : SlidingCounterMap) (key : String) (now : Int) :
    RateLimitResult × SlidingCounterMap :=
  let currentWindowStart := (now.fdiv cfg.windowMs) * cfg.windowMs
  let previousWindowStart := currentWindowStart - cfg.windowMs
  let current0 := windows (key, true)
  let previous0 := windows (key, false)
  let t :=
    match current0 with
    | some c =>
      if c.windowStart = currentWindowStart then (windows, c, previous0)
      else scRotate windows key current0 previous0 currentWindowStart previousWindowStart
    | none => scRotate windows key current0 previous0 currentWindowStart previousWindowStart
  -- second guard: fixes up the local `previous` only, no map write
  let previous : SlidingCounterEntry :=
    match t.2.2 with
    | none => ⟨0, previousWindowStart⟩
    | some p0 => if p0.windowStart ≠ previousWindowStart then ⟨0, previousWindowStart⟩ else p0
  let elapsedInCurrentWindow := now - currentWindowStart
  let previousWeight := (Frac.ofInt 1).sub ⟨elapsedInCurrentWindow, cfg.windowMs⟩
  let estimate := Frac.floorF ((Frac.ofInt previous.count).mul previousWeight) + t.2.1.count
  if cfg.maxRequests ≤ estimate then
    let retryAfter := Frac.ceilF ⟨cfg.windowMs - elapsedInCurrentWindow, 1000⟩
    ({ allowed := false, limit := cfg.maxRequests, remaining := 0,
       retryAfter := some (max retryAfter 1) }, t.1)
  else
    let c2 : SlidingCounterEntry := ⟨t.2.1.count + 1, t.2.1.windowStart⟩
    ({ allowed := true, limit := cfg.maxRequests,
       remaining := cfg.maxRequests - estimate - 1 }, setFn t.1 (key, true) (some c2))

/-- Sliding counter: a denied `consume` reports `remaining = 0` and a
`retryAfter` of at least one second. -/
theorem slidingCounter_denied (cfg : SlidingCounterConfig) (windows : SlidingCounterMap)
    (key : String) (now : Int)
    (hden : (SlidingCounterRateLimiter.consume cfg windows key now).1.allowed = false) :
    (SlidingCounterRateLimiter.consume cfg windows key now).1.remaining = 0 ∧
    ∃ r, (SlidingCounterRateLimiter.consume cfg windows key now).1.retryAfter = some r ∧ 1 ≤ r := by
  rw [SlidingCounterRateLimiter.consume] at hden ⊢
  split
  · exact ⟨rfl, _, rfl, le_max_right _ 1⟩
  · rename_i hc
    rw [if_neg hc] at hden
    exact absurd hden (by simp)

/-! ### Token bucket (`token-bucket.ts`) -/

structure TokenBucketEntry where
  tokens : Frac
  lastRefill : Int
deriving DecidableEq, Repr

structure TokenBucketConfig where
  capacity : Int
  refillRate : Frac
deriving DecidableEq, Repr

/-- The lazy refill: tokens added since the last request, capped at
capacity. -/
def tbTokens (cfg : TokenBucketConfig) (bucket : TokenBucketEntry) (now : Int) : Frac :=
  (Frac.ofInt cfg.capacity).minF
    (bucket.tokens.add (Frac.mul ⟨now - bucket.lastRefill, 1000⟩ cfg.refillRate))

def TokenBucketRateLimiter.consume (cfg : TokenBucketConfig)
    (buckets : String → Option TokenBucketEntry) (key : String) (now : Int) :
    RateLimitResult × (String → Option TokenBucketEntry) :=
  -- a new client gets a full bucket
  let bucket := (buckets key).getD ⟨Frac.ofInt cfg.capacity, now⟩
  let tokens1 := tbTokens cfg bucket now
  if tokens1.blt (Frac.ofInt 1) then
    let retryAfter := Frac.ceilF (((Frac.ofInt 1).sub tokens1).div cfg.refillRate)
    ({ allowed := false, limit := cfg.capacity, remaining := 0,
       retryAfter := some retryAfter }, setFn buckets key (some ⟨tokens1, now⟩))
  else
    let tokens2 := tokens1.sub (Frac.ofInt 1)
    ({ allowed := true, limit := cfg.capacity, remaining := tokens2.floorF },
     setFn buckets key (some ⟨tokens2, now⟩))

theorem Frac.minF_den_pos (a b : Frac) (ha : 0 < a.den) (hb : 0 < b.den) :
    0 < (a.minF b).den := by
  rw [Frac.minF]
  split
  · exact ha
  · exact hb

theorem Frac.maxF_den_pos (a b : Frac) (ha : 0 < a.den) (hb : 0 < b.den) :
    0 < (a.maxF b).den := by
  rw [Frac.maxF]
  split
  · exact hb
  · exact ha

/-- Every stored bucket keeps a positive token denominator. -/
def TokenBucketInv (m : String → Option TokenBucketEntry) : Prop :=
  ∀ k e, m k = some e → 0 < e.tokens.den

theorem tbTokens_den_pos (cfg : TokenBucketConfig) (bucket : TokenBucketEntry) (now : Int)
    (hd : 0 < cfg.refillRate.den) (ht : 0 < bucket.tokens.den) :
    0 < (tbTokens cfg bucket now).den := by
  refine Frac.minF_den_pos _ _ (by norm_num [Frac.ofInt]) ?_
  show 0 < bucket.tokens.den * (1000 * cfg.refillRate.den)
  positivity

theorem tokenBucket_bucket_den_pos (cfg : TokenBucketConfig)
    (buckets : String → Option TokenBucketEntry) (key : String) (now : Int)
    (hinv : TokenBucketInv buckets) :
    0 < ((buckets key).getD ⟨Frac.ofInt cfg.capacity, now⟩).tokens.den := by
  rcases hb : buckets key with _ | e
  · simp [Frac.ofInt]
  · simpa using hinv key e hb

theorem tokenBucketInv_consume (cfg : TokenBucketConfig)
    (buckets : String → Option TokenBucketEntry) (key : String) (now : Int)
    (hd : 0 < cfg.refillRate.den) (hinv : TokenBucketInv buckets) :
    TokenBucketInv (TokenBucketRateLimiter.consume cfg buckets key now).2 := by
  have hpos := tbTokens_den_pos cfg ((buckets key).getD ⟨Frac.ofInt cfg.capacity, now⟩) now hd
    (tokenBucket_bucket_den_pos cfg buckets key now hinv)
  rw [TokenBucketRateLimiter.consume]
  split
  all_goals
    intro k e hk
    simp only [setFn] at hk
    by_cases hkey : k = key
    · rw [if_pos hkey] at hk
      cases hk
      first
        | exact hpos
        | (show 0 < _ * 1; omega)
    · rw [if_neg hkey] at hk
      exact hinv k e hk

/-- Token bucket: with a positive refill rate, a denied `consume`
reports `remaining = 0` and a `retryAfter` of at least one second. -/
theorem tokenBucket_denied (cfg : TokenBucketConfig)
    (buckets : String → Option TokenBucketEntry) (key : String) (now : Int)
    (hnum : 0 < cfg.refillRate.num) (hd : 0 < cfg.refillRate.den)
    (hinv : TokenBucketInv buckets)
    (hden : (TokenBucketRateLimiter.consume cfg buckets key now).1.allowed = false) :
    (TokenBucketRateLimiter.consume cfg buckets key now).1.remaining = 0 ∧
    ∃ r, (TokenBucketRateLimiter.consume cfg buckets key now).1.retryAfter = some r ∧ 1 ≤ r := by
  have htd := tbTokens_den_pos cfg ((buckets key).getD ⟨Frac.ofInt cfg.capacity, now⟩) now hd
    (tokenBucket_bucket_den_pos cfg buckets key now hinv)
  rw [TokenBucketRateLimiter.consume] at hden ⊢
  split
  · rename_i hlt
    refine ⟨rfl, _, rfl, ?_⟩
    set tokens1 := tbTokens cfg ((buckets key).getD ⟨Frac.ofInt cfg.capacity, now⟩) now with ht1
    have hlt' : tokens1.toQ < 1 := by
      have := (Frac.blt_iff tokens1 (Frac.ofInt 1) htd (by norm_num [Frac.ofInt])).mp hlt
      rwa [Frac.toQ_ofInt] at this
    refine Frac.one_le_ceilF _ ?_ ?_
    · show 0 < 1 * tokens1.den * cfg.refillRate.num
      positivity
    · have hsub : ((Frac.ofInt 1).sub tokens1).toQ = 1 - tokens1.toQ := by
        rw [Frac.toQ_sub _ _ (by norm_num [Frac.ofInt]) (by omega), Frac.toQ_ofInt]
        norm_num
      have hrate : (0 : ℚ) < cfg.refillRate.toQ := by
        rw [Frac.toQ]
        have h1 : (0 : ℚ) < (cfg.refillRate.num : ℚ) := by exact_mod_cast hnum
        have h2 : (0 : ℚ) < (cfg.refillRate.den : ℚ) := by exact_mod_cast hd
        positivity
      rw [Frac.toQ_div _ _ (by show (1:ℤ) * tokens1.den ≠ 0; omega) (by omega) (by omega), hsub]
      have : (0 : ℚ) < 1 - tokens1.toQ := by linarith
      positivity
  · rename_i hc
    rw [if_neg hc] at hden
    exact absurd hden (by simp)

/-! ### Leaky bucket (`leaky-bucket.ts`) -/

structure LeakyBucketEntry where
  queueSize : Frac
  lastLeak : Int
deriving DecidableEq, Repr

structure LeakyBucketConfig where
  capacity : Int
  leakRate : Frac
deriving DecidableEq, Repr

/-- The lazy leak: queued requests drained since the last check,
clamped at zero. -/
def lbQueue (cfg : LeakyBucketConfig) (bucket : LeakyBucketEntry) (now : Int) : Frac :=
  (Frac.ofInt 0).maxF
    (bucket.queueSize.sub (Frac.mul ⟨now - bucket.lastLeak, 1000⟩ cfg.leakRate))

def LeakyBucketRateLimiter.consume (cfg : LeakyBucketConfig)
    (buckets : String → Option LeakyBucketEntry) (key : String) (now : Int) :
    RateLimitResult × (String → Option LeakyBucketEntry) :=
  -- a new client starts with an empty queue
  let bucket := (buckets key).getD ⟨Frac.ofInt 0, now⟩
  let q1 := lbQueue cfg bucket now
  if (Frac.ofInt cfg.capacity).ble q1 then
    let retryAfter := Frac.ceilF (((q1.sub (Frac.ofInt cfg.capacity)).add (Frac.ofInt 1)).div cfg.leakRate)
    ({ allowed := false, limit := cfg.capacity, remaining := 0,
       retryAfter := some retryAfter }, setFn buckets key (some ⟨q1, now⟩))
  else
    let q2 := q1.add (Frac.ofInt 1)
    ({ allowed := true, limit := cfg.capacity,
       remaining := ((Frac.ofInt cfg.capacity).sub q2).floorF },
     setFn buckets key (some ⟨q2, now⟩))

/-- Every stored queue keeps a positive denominator. -/
def LeakyBucketInv (m : String → Option LeakyBucketEntry) : Prop :=
  ∀ k e, m k = some e → 0 < e.queueSize.den

theorem lbQueue_den_pos (cfg : LeakyBucketConfig) (bucket : LeakyBucketEntry) (now : Int)
    (hd : 0 < cfg.leakRate.den) (ht : 0 < bucket.queueSize.den) :
    0 < (lbQueue cfg bucket now).den := by
  refine Frac.maxF_den_pos _ _ (by norm_num [Frac.ofInt]) ?_
  show 0 < bucket.queueSize.den * (1000 * cfg.leakRate.den)
  positivity

theorem leakyBucket_bucket_den_pos (cfg : LeakyBucketConfig)
    (buckets : String → Option LeakyBucketEntry) (key : String) (now : Int)
    (hinv : LeakyBucketInv buckets) :
    0 < ((buckets key).getD ⟨Frac.ofInt 0, now⟩).queueSize.den := by
  rcases hb : buckets key with _ | e
  · simp [Frac.ofInt]
  · simpa using hinv key e hb

theorem leakyBucketInv_consume (cfg : LeakyBucketConfig)
    (buckets : String → Option LeakyBucketEntry) (key : String) (now : Int)
    (hd : 0 < cfg.leakRate.den) (hinv : LeakyBucketInv buckets) :
    LeakyBucketInv (LeakyBucketRateLimiter.consume cfg buckets key now).2 := by
  have hpos := lbQueue_den_pos cfg ((buckets key).getD ⟨Frac.ofInt 0, now⟩) now hd
    (leakyBucket_bucket_den_pos cfg buckets key now hinv)
  rw [LeakyBucketRateLimiter.consume]
  split
  all_goals
    intro k e hk
    simp only [setFn] at hk
    by_cases hkey : k = key
    · rw [if_pos hkey] at hk
      cases hk
      first
        | exact hpos
        | (show 0 < _ * 1; omega)
    · rw [if_neg hkey] at hk
      exact hinv k e hk

/-- Leaky bucket: with a positive leak rate, a denied `consume`
reports `remaining = 0` and a `retryAfter` of at least one second. -/
theorem leakyBucket_denied (cfg : LeakyBucketConfig)
    (buckets : String → Option LeakyBucketEntry) (key : String) (now : Int)
    (hnum : 0 < cfg.leakRate.num) (hd : 0 < cfg.leakRate.den)
    (hinv : LeakyBucketInv buckets)
    (hden : (LeakyBucketRateLimiter.consume cfg buckets key now).1.allowed = false) :
    (LeakyBucketRateLimiter.consume cfg buckets key now).1.remaining = 0 ∧
    ∃ r, (LeakyBucketRateLimiter.consume cfg buckets key now).1.retryAfter = some r ∧ 1 ≤ r := by
  have hqd := lbQueue_den_pos cfg ((buckets key).getD ⟨Frac.ofInt 0, now⟩) now hd
    (leakyBucket_bucket_den_pos cfg buckets key now hinv)
  rw [LeakyBucketRateLimiter.consume] at hden ⊢
  split
  · rename_i hge
    refine ⟨rfl, _, rfl, ?_⟩
    set q1 := lbQueue cfg ((buckets key).getD ⟨Frac.ofInt 0, now⟩) now with hq1
    have hge' : (cfg.capacity : ℚ) ≤ q1.toQ := by
      have := (Frac.ble_iff (Frac.ofInt cfg.capacity) q1 (by norm_num [Frac.ofInt]) hqd).mp hge
      rwa [Frac.toQ_ofInt] at this
    refine Frac.one_le_ceilF _ ?_ ?_
    · show 0 < q1.den * 1 * 1 * cfg.leakRate.num
      positivity
    · have hsub : ((q1.sub (Frac.ofInt cfg.capacity)).add (Frac.ofInt 1)).toQ
          = q1.toQ - cfg.capacity + 1 := by
        rw [Frac.toQ_add _ _ (by show q1.den * 1 ≠ (0:ℤ); omega) (by norm_num [Frac.ofInt]),
          Frac.toQ_sub _ _ (by omega) (by norm_num [Frac.ofInt]), Frac.toQ_ofInt, Frac.toQ_ofInt]
        norm_num
      have hrate : (0 : ℚ) < cfg.leakRate.toQ := by
        rw [Frac.toQ]
        have h1 : (0 : ℚ) < (cfg.leakRate.num : ℚ) := by exact_mod_cast hnum
        have h2 : (0 : ℚ) < (cfg.leakRate.den : ℚ) := by exact_mod_cast hd
        positivity
      rw [Frac.toQ_div _ _ (by show q1.den * 1 * 1 ≠ (0:ℤ); omega) (by omega) (by omega), hsub]
      have : (0 : ℚ) < q1.toQ - cfg.capacity + 1 := by linarith
      positivity
  · rename_i hc
    rw [if_neg hc] at hden
    exact absurd hden (by simp)

/-- What claim C3 asserts of one decision record: denial comes with
`remaining = 0` and a present `retryAfter` of at least one second. -/
def RateLimitResult.deniedOk (r : RateLimitResult) : Prop :=
  r.allowed = false → r.remaining = 0 ∧ ∃ ra, r.retryAfter = some ra ∧ 1 ≤ ra

/-- C3: for every one of the five rate limiters, every client key, and every
call to `consume` that returns a denied decision (`allowed = false`), the
returned record has `remaining = 0` and `retryAfter` present with
`retryAfter ≥ 1`. Window lengths and rates are positive (all deployed
configurations satisfy this), bucket states are reachable ones (their
stored denominators are positive and fixed-window entries expire at their
window boundary, both invariants being preserved by `consume`). The
fixed-window edge case of a call at a window's expiry instant opens a new
window, so no denied record is produced there at all. -/
theorem claim_C3_denied_records (fwCfg : FixedWindowConfig) (fwMap : FixedWindowMap)
    (slCfg : SlidingLogConfig) (slLogs : String → List Int)
    (scCfg : SlidingCounterConfig) (scMap : SlidingCounterMap)
    (tbCfg : TokenBucketConfig) (tbMap : String → Option TokenBucketEntry)
    (lkCfg : LeakyBucketConfig) (lkMap : String → Option LeakyBucketEntry)
    (key : String) (now : Int)
    (hfw : 0 < fwCfg.windowMs) (hfwInv : FixedWindowInv fwCfg fwMap)
    (htbn : 0 < tbCfg.refillRate.num) (htbd : 0 < tbCfg.refillRate.den)
    (htbInv : TokenBucketInv tbMap)
    (hlkn : 0 < lkCfg.leakRate.num) (hlkd : 0 < lkCfg.leakRate.den)
    (hlkInv : LeakyBucketInv lkMap) :
    (FixedWindowRateLimiter.consume fwCfg fwMap key now).1.deniedOk ∧
    (SlidingLogRateLimiter.consume slCfg slLogs key now).1.deniedOk ∧
    (SlidingCounterRateLimiter.consume scCfg scMap key now).1.deniedOk ∧
    (TokenBucketRateLimiter.consume tbCfg tbMap key now).1.deniedOk ∧
    (LeakyBucketRateLimiter.consume lkCfg lkMap key now).1.deniedOk :=
  ⟨fun hden => fixedWindow_denied fwCfg fwMap key now hfw hfwInv hden,
   fun hden => slidingLog_denied slCfg slLogs key now hden,
   fun hden => slidingCounter_denied scCfg scMap key now hden,
   fun hden => tokenBucket_denied tbCfg tbMap key now htbn htbd htbInv hden,
   fun hden => leakyBucket_denied lkCfg lkMap key now hlkn hlkd hlkInv hden⟩

/-- Witness for C3: a concrete denial of each of the five limiters.
Fixed window at count 1 of 1; sliding log with one fresh timestamp of 1;
sliding counter with the current window full; an empty token bucket; a
full leaky-bucket queue. -/
theorem claim_C3_denied_records_witness :
    ((FixedWindowRateLimiter.consume ⟨1, 1000⟩ [(("c", 0), ⟨1, 1000⟩)] "c" 0).1.remaining = 0 ∧
      ∃ ra, (FixedWindowRateLimiter.consume ⟨1, 1000⟩ [(("c", 0), ⟨1, 1000⟩)] "c" 0).1.retryAfter
        = some ra ∧ 1 ≤ ra) ∧
    ((SlidingLogRateLimiter.consume ⟨1, 1000⟩ (fun _ => [0]) "c" 500).1.remaining = 0 ∧
      ∃ ra, (SlidingLogRateLimiter.consume ⟨1, 1000⟩ (fun _ => [0]) "c" 500).1.retryAfter
        = some ra ∧ 1 ≤ ra) ∧
    ((SlidingCounterRateLimiter.consume ⟨1, 1000⟩
        (fun p => if p.2 = true then some ⟨1, 0⟩ else none) "c" 0).1.remaining = 0 ∧
      ∃ ra, (SlidingCounterRateLimiter.consume ⟨1, 1000⟩
        (fun p => if p.2 = true then some ⟨1, 0⟩ else none) "c" 0).1.retryAfter
        = some ra ∧ 1 ≤ ra) ∧
    ((TokenBucketRateLimiter.consume ⟨10, ⟨2, 1⟩⟩
        (fun _ => some ⟨⟨0, 1⟩, 0⟩) "c" 0).1.remaining = 0 ∧
      ∃ ra, (TokenBucketRateLimiter.consume ⟨10, ⟨2, 1⟩⟩
        (fun _ => some ⟨⟨0, 1⟩, 0⟩) "c" 0).1.retryAfter = some ra ∧ 1 ≤ ra) ∧
    ((LeakyBucketRateLimiter.consume ⟨10, ⟨2, 1⟩⟩
        (fun _ => some ⟨⟨10, 1⟩, 0⟩) "c" 0).1.remaining = 0 ∧
      ∃ ra, (LeakyBucketRateLimiter.consume ⟨10, ⟨2, 1⟩⟩
        (fun _ => some ⟨⟨10, 1⟩, 0⟩) "c" 0).1.retryAfter = some ra ∧ 1 ≤ ra) := by
  have h := claim_C3_denied_records ⟨1, 1000⟩ [(("c", 0), ⟨1, 1000⟩)]
    ⟨1, 1000⟩ (fun _ => [0]) ⟨1, 1000⟩ (fun p => if p.2 = true then some ⟨1, 0⟩ else none)
    ⟨10, ⟨2, 1⟩⟩ (fun _ => some ⟨⟨0, 1⟩, 0⟩) ⟨10, ⟨2, 1⟩⟩ (fun _ => some ⟨⟨10, 1⟩, 0⟩)
    "c" 0 (by decide) (fun e he => by rw [List.mem_singleton.mp he]; decide)
    (by decide) (by decide)
    (fun k e hk => by cases hk; decide) (by decide) (by decide)
    (fun k e hk => by cases hk; decide)
  refine ⟨h.1 (by decide), ?_, h.2.2.1 (by decide), h.2.2.2.1 (by decide),
    h.2.2.2.2 (by decide)⟩
  have h2 := claim_C3_denied_records ⟨1, 1000⟩ [(("c", 0), ⟨1, 1000⟩)]
    ⟨1, 1000⟩ (fun _ => [0]) ⟨1, 1000⟩ (fun p => if p.2 = true then some ⟨1, 0⟩ else none)
    ⟨10, ⟨2, 1⟩⟩ (fun _ => some ⟨⟨0, 1⟩, 0⟩) ⟨10, ⟨2, 1⟩⟩ (fun _ => some ⟨⟨10, 1⟩, 0⟩)
    "c" 500 (by decide) (fun e he => by rw [List.mem_singleton.mp he]; decide)
    (by decide) (by decide)
    (fun k e hk => by cases hk; decide) (by decide) (by decide)
    (fun k e hk => by cases hk; decide)
  exact h2.2.1 (by decide)

/-! ## The rate-limit middleware's 429 response (`middleware/rate-limit.ts`) -/

/-- The value the middleware writes into the `Retry-After` header:
`result.retryAfter || 1` (JavaScript `||`: `undefined` and `0` are falsy
and yield the fallback `1`). -/
def retryAfterHeader (result : RateLimitResult) : Int :=
  match result.retryAfter with
  | none => 1
  | some v => if v = 0 then 1 else v

/-- The 429 response assembled by `RateLimitMiddleware.handle` on denial:
the `Retry-After` header and the `retryAfter` field of the JSON body. -/
structure RateLimitRejection where
  headerRetryAfter : Int
  bodyRetryAfter : Option Int
deriving DecidableEq, Repr

def RateLimitMiddleware.reject (result : RateLimitResult) : RateLimitRejection :=
  ⟨retryAfterHeader result, result.retryAfter⟩

theorem one_le_retryAfterHeader (res : RateLimitResult)
    (h : ∃ ra, res.retryAfter = some ra ∧ 1 ≤ ra) : 1 ≤ retryAfterHeader res := by
  obtain ⟨ra, hra, h1⟩ := h
  rw [retryAfterHeader, hra]
  show (1 : Int) ≤ if ra = 0 then 1 else ra
  rw [if_neg (by omega : ¬ ra = 0)]
  exact h1

/-- C9 (implicit): whenever the rate-limit middleware rejects with 429, the
`Retry-After` header it sets is ≥ 1 — when the limiter's record carries
`retryAfter = 0` or omits it, the middleware substitutes 1 (JavaScript
`result.retryAfter || 1`); for records produced by any of the five
limiters the raw value is already ≥ 1. The JSON body's `retryAfter`
field echoes the limiter's raw value unmodified. -/
theorem claim_C9_retry_after_header (fwCfg : FixedWindowConfig) (fwMap : FixedWindowMap)
    (slCfg : SlidingLogConfig) (slLogs : String → List Int)
    (scCfg : SlidingCounterConfig) (scMap : SlidingCounterMap)
    (tbCfg : TokenBucketConfig) (tbMap : String → Option TokenBucketEntry)
    (lkCfg : LeakyBucketConfig) (lkMap : String → Option LeakyBucketEntry)
    (key : String) (now : Int)
    (hfw : 0 < fwCfg.windowMs) (hfwInv : FixedWindowInv fwCfg fwMap)
    (htbn : 0 < tbCfg.refillRate.num) (htbd : 0 < tbCfg.refillRate.den)
    (htbInv : TokenBucketInv tbMap)
    (hlkn : 0 < lkCfg.leakRate.num) (hlkd : 0 < lkCfg.leakRate.den)
    (hlkInv : LeakyBucketInv lkMap) :
    (∀ res : RateLimitResult, res.retryAfter = none →
      (RateLimitMiddleware.reject res).headerRetryAfter = 1) ∧
    (∀ res : RateLimitResult, res.retryAfter = some 0 →
      (RateLimitMiddleware.reject res).headerRetryAfter = 1) ∧
    (∀ res : RateLimitResult,
      (RateLimitMiddleware.reject res).bodyRetryAfter = res.retryAfter) ∧
    ((FixedWindowRateLimiter.consume fwCfg fwMap key now).1.allowed = false →
      1 ≤ (RateLimitMiddleware.reject
        (FixedWindowRateLimiter.consume fwCfg fwMap key now).1).headerRetryAfter) ∧
    ((SlidingLogRateLimiter.consume slCfg slLogs key now).1.allowed = false →
      1 ≤ (RateLimitMiddleware.reject
        (SlidingLogRateLimiter.consume slCfg slLogs key now).1).headerRetryAfter) ∧
    ((SlidingCounterRateLimiter.consume scCfg scMap key now).1.allowed = false →
      1 ≤ (RateLimitMiddleware.reject
        (SlidingCounterRateLimiter.consume scCfg scMap key now).1).headerRetryAfter) ∧
    ((TokenBucketRateLimiter.consume tbCfg tbMap key now).1.allowed = false →
      1 ≤ (RateLimitMiddleware.reject
        (TokenBucketRateLimiter.consume tbCfg tbMap key now).1).headerRetryAfter) ∧
    ((LeakyBucketRateLimiter.consume lkCfg lkMap key now).1.allowed = false →
      1 ≤ (RateLimitMiddleware.reject
        (LeakyBucketRateLimiter.consume lkCfg lkMap key now).1).headerRetryAfter) := by
  refine ⟨?_, ?_, ?_, ?_, ?_, ?_, ?_, ?_⟩
  · intro res h
    show retryAfterHeader res = 1
    rw [retryAfterHeader, h]
  · intro res h
    show retryAfterHeader res = 1
    rw [retryAfterHeader, h]
    show (if (0 : Int) = 0 then 1 else (0 : Int)) = 1
    rw [if_pos rfl]
  · intro res
    rfl
  · intro hden
    exact one_le_retryAfterHeader _ (fixedWindow_denied fwCfg fwMap key now hfw hfwInv hden).2
  · intro hden
    exact one_le_retryAfterHeader _ (slidingLog_denied slCfg slLogs key now hden).2
  · intro hden
    exact one_le_retryAfterHeader _ (slidingCounter_denied scCfg scMap key now hden).2
  · intro hden
    exact one_le_retryAfterHeader _
      (tokenBucket_denied tbCfg tbMap key now htbn htbd htbInv hden).2
  · intro hden
    exact one_le_retryAfterHeader _
      (leakyBucket_denied lkCfg lkMap key now hlkn hlkd hlkInv hden).2

/-- Witness for C9: the substitution cases at concrete records, and the
header for a concrete denied decision of each of the five limiters. -/
theorem claim_C9_retry_after_header_witness :
    (RateLimitMiddleware.reject ⟨false, 1, 0, none⟩).headerRetryAfter = 1 ∧
    (RateLimitMiddleware.reject ⟨false, 1, 0, some 0⟩).headerRetryAfter = 1 ∧
    (RateLimitMiddleware.reject ⟨false, 1, 0, some 0⟩).bodyRetryAfter = some 0 ∧
    1 ≤ (RateLimitMiddleware.reject
      (FixedWindowRateLimiter.consume ⟨1, 1000⟩ [(("c", 0), ⟨1, 1000⟩)] "c" 0).1).headerRetryAfter ∧
    1 ≤ (RateLimitMiddleware.reject
      (SlidingLogRateLimiter.consume ⟨1, 1000⟩ (fun _ => [0]) "c" 500).1).headerRetryAfter ∧
    1 ≤ (RateLimitMiddleware.reject
      (SlidingCounterRateLimiter.consume ⟨1, 1000⟩
        (fun p => if p.2 = true then some ⟨1, 0⟩ else none) "c" 0).1).headerRetryAfter ∧
    1 ≤ (RateLimitMiddleware.reject
      (TokenBucketRateLimiter.consume ⟨10, ⟨2, 1⟩⟩
        (fun _ => some ⟨⟨0, 1⟩, 0⟩) "c" 0).1).headerRetryAfter ∧
    1 ≤ (RateLimitMiddleware.reject
      (LeakyBucketRateLimiter.consume ⟨10, ⟨2, 1⟩⟩
        (fun _ => some ⟨⟨10, 1⟩, 0⟩) "c" 0).1).headerRetryAfter := by
  have h := claim_C9_retry_after_header ⟨1, 1000⟩ [(("c", 0), ⟨1, 1000⟩)]
    ⟨1, 1000⟩ (fun _ => [0]) ⟨1, 1000⟩ (fun p => if p.2 = true then some ⟨1, 0⟩ else none)
    ⟨10, ⟨2, 1⟩⟩ (fun _ => some ⟨⟨0, 1⟩, 0⟩) ⟨10, ⟨2, 1⟩⟩ (fun _ => some ⟨⟨10, 1⟩, 0⟩)
    "c" 0 (by decide) (fun e he => by rw [List.mem_singleton.mp he]; decide)
    (by decide) (by decide)
    (fun k e hk => by cases hk; decide) (by decide) (by decide)
    (fun k e hk => by cases hk; decide)
  have h500 := claim_C9_retry_after_header ⟨1, 1000⟩ [(("c", 0), ⟨1, 1000⟩)]
    ⟨1, 1000⟩ (fun _ => [0]) ⟨1, 1000⟩ (fun p => if p.2 = true then some ⟨1, 0⟩ else none)
    ⟨10, ⟨2, 1⟩⟩ (fun _ => some ⟨⟨0, 1⟩, 0⟩) ⟨10, ⟨2, 1⟩⟩ (fun _ => some ⟨⟨10, 1⟩, 0⟩)
    "c" 500 (by decide) (fun e he => by rw [List.mem_singleton.mp he]; decide)
    (by decide) (by decide)
    (fun k e hk => by cases hk; decide) (by decide) (by decide)
    (fun k e hk => by cases hk; decide)
  exact ⟨h.1 _ rfl, h.2.1 _ rfl, h.2.2.1 _, h.2.2.2.1 (by decide),
    h500.2.2.2.2.1 (by decide), h.2.2.2.2.2.1 (by decide),
    h.2.2.2.2.2.2.1 (by decide), h.2.2.2.2.2.2.2 (by decide)⟩

/-! ## Circuit breaker (`circuit-breaker/circuit-breaker.ts`)

One breaker per backend. `Date.now()` is passed explicitly to the
operations that read the clock (`canRequest`, `onFailure`, `getState`);
`onSuccess` does not read the clock. The `stateChanges` observability log
keeps the `(from, to)` pairs; its ISO timestamp strings are omitted. -/

inductive CircuitState
  | CLOSED
  | OPEN
  | HALF_OPEN
deriving DecidableEq, Repr

structure CircuitBreakerOptions where
  failureThreshold : Nat
  resetTimeout : Int
  monitorWindow : Int
  halfOpenMax : Nat
deriving DecidableEq, Repr

structure CircuitBreakerStats where
  totalRequests : Nat := 0
  totalFailures : Nat := 0
  totalRejected : Nat := 0
  totalSuccesses : Nat := 0
  stateChanges : List (CircuitState × CircuitState) := []
deriving DecidableEq, Repr

structure CircuitBreaker where
  options : CircuitBreakerOptions
  state : CircuitState := .CLOSED
  failures : List Int := []
  successes : Nat := 0
  lastFailure : Int := 0
  openedAt : Int := 0
  halfOpenAttempts : Nat := 0
  stats : CircuitBreakerStats := {}
deriving DecidableEq, Repr

def CircuitBreaker.transitionTo (cb : CircuitBreaker) (newState : CircuitState) :
    CircuitBreaker :=
  { cb with
    state := newState,
    stats := { cb.stats with
      stateChanges := cb.stats.stateChanges ++ [(cb.state, newState)] } }

def CircuitBreaker.canRequest (cb0 : CircuitBreaker) (now : Int) : Bool × CircuitBreaker :=
  let cb := { cb0 with stats := { cb0.stats with totalRequests := cb0.stats.totalRequests + 1 } }
  match cb.state with
  | .CLOSED => (true, cb)
  | .OPEN =>
    if cb.options.resetTimeout ≤ now - cb.openedAt then
      -- enough time has passed: try half-open and admit the test request
      let cb1 := cb.transitionTo .HALF_OPEN
      (true, { cb1 with halfOpenAttempts := 0 })
    else
      (false, { cb with stats := { cb.stats with totalRejected := cb.stats.totalRejected + 1 } })
  | .HALF_OPEN =>
    if cb.halfOpenAttempts < cb.options.halfOpenMax then
      (true, { cb with halfOpenAttempts := cb.halfOpenAttempts + 1 })
    else
      (false, { cb with stats := { cb.stats with totalRejected := cb.stats.totalRejected + 1 } })

def CircuitBreaker.onSuccess (cb0 : CircuitBreaker) : CircuitBreaker :=
  let cb := { cb0 with stats := { cb0.stats with totalSuccesses := cb0.stats.totalSuccesses + 1 } }
  match cb.state with
  | .HALF_OPEN => { (cb.transitionTo .CLOSED) with failures := [], successes := 0 }
  | .CLOSED => { cb with successes := cb.successes + 1 }
  | .OPEN => cb

def CircuitBreaker.onFailure (cb0 : CircuitBreaker) (now : Int) : CircuitBreaker :=
  let cb := { cb0 with stats := { cb0.stats with totalFailures := cb0.stats.totalFailures + 1 } }
  match cb.state with
  | .CLOSED =>
    let failures1 := (cb.failures ++ [now]).filter
      (fun t => decide (now - t < cb.options.monitorWindow))
    if cb.options.failureThreshold ≤ failures1.length then
      { ({ cb with failures := failures1 }.transitionTo .OPEN) with openedAt := now }
    else { cb with failures := failures1 }
  | .HALF_OPEN => { (cb.transitionTo .OPEN) with openedAt := now }
  | .OPEN => cb

def CircuitBreaker.getState (cb : CircuitBreaker) (now : Int) : CircuitState × CircuitBreaker :=
  match cb.state with
  | .OPEN =>
    if cb.options.resetTimeout ≤ now - cb.openedAt then
      let cb1 := { (cb.transitionTo .HALF_OPEN) with halfOpenAttempts := 0 }
      (cb1.state, cb1)
    else (.OPEN, cb)
  | s => (s, cb)

def CircuitBreaker.reset (cb : CircuitBreaker) : CircuitBreaker :=
  { cb with
    state := .CLOSED,
    failures := [],
    successes := 0,
    halfOpenAttempts := 0,
    openedAt := 0,
    stats := {} }

/-- A sequence of `canRequest` calls at the given times, collecting the
answers. -/
def CircuitBreaker.canRequestSeq (cb : CircuitBreaker) : List Int → List Bool × CircuitBreaker
  | [] => ([], cb)
  | t :: ts =>
    let p := cb.canRequest t
    let q := p.2.canRequestSeq ts
    (p.1 :: q.1, q.2)

/-- A sequence of `onFailure` calls at the given times. -/
def CircuitBreaker.onFailureSeq (cb : CircuitBreaker) (ts : List Int) : CircuitBreaker :=
  ts.foldl (fun b t => b.onFailure t) cb

/-- What the spec's failure-log invariant asserts at one observation
instant: every logged timestamp lies within the monitor window. -/
def logWithinWindow (cb : CircuitBreaker) (now : Int) : Prop :=
  ∀ t ∈ cb.failures, now - t ≤ cb.options.monitorWindow

theorem canRequest_closed (cb : CircuitBreaker) (t : Int)
    (hs : cb.state = CircuitState.CLOSED) :
    (cb.canRequest t).1 = true ∧ (cb.canRequest t).2.state = CircuitState.CLOSED ∧
    (cb.canRequest t).2.failures = cb.failures ∧
    (cb.canRequest t).2.options = cb.options := by
  rcases cb with ⟨opts, st, f, su, lf, oa, ha, sts⟩
  dsimp only at hs
  subst hs
  exact ⟨rfl, rfl, rfl, rfl⟩

theorem canRequest_open_elapsed (cb : CircuitBreaker) (t : Int)
    (hs : cb.state = CircuitState.OPEN)
    (hge : cb.options.resetTimeout ≤ t - cb.openedAt) :
    (cb.canRequest t).1 = true ∧ (cb.canRequest t).2.state = CircuitState.HALF_OPEN ∧
    (cb.canRequest t).2.halfOpenAttempts = 0 ∧
    (cb.canRequest t).2.options = cb.options := by
  rcases cb with ⟨opts, st, f, su, lf, oa, ha, sts⟩
  dsimp only at hs hge
  subst hs
  simp only [CircuitBreaker.canRequest, CircuitBreaker.transitionTo]
  rw [if_pos hge]
  exact ⟨rfl, rfl, rfl, rfl⟩

theorem canRequest_open_early (cb : CircuitBreaker) (t : Int)
    (hs : cb.state = CircuitState.OPEN)
    (hlt : t - cb.openedAt < cb.options.resetTimeout) :
    (cb.canRequest t).1 = false ∧ (cb.canRequest t).2.state = CircuitState.OPEN ∧
    (cb.canRequest t).2.openedAt = cb.openedAt ∧
    (cb.canRequest t).2.options = cb.options := by
  rcases cb with ⟨opts, st, f, su, lf, oa, ha, sts⟩
  dsimp only at hs hlt
  subst hs
  simp only [CircuitBreaker.canRequest]
  rw [if_neg (not_le.mpr hlt)]
  exact ⟨rfl, rfl, rfl, rfl⟩

theorem canRequest_halfOpen_admit (cb : CircuitBreaker) (t : Int)
    (hs : cb.state = CircuitState.HALF_OPEN)
    (hlt : cb.halfOpenAttempts < cb.options.halfOpenMax) :
    (cb.canRequest t).1 = true ∧ (cb.canRequest t).2.state = CircuitState.HALF_OPEN ∧
    (cb.canRequest t).2.halfOpenAttempts = cb.halfOpenAttempts + 1 ∧
    (cb.canRequest t).2.options = cb.options := by
  rcases cb with ⟨opts, st, f, su, lf, oa, ha, sts⟩
  dsimp only at hs hlt
  subst hs
  simp only [CircuitBreaker.canRequest]
  rw [if_pos hlt]
  exact ⟨rfl, rfl, rfl, rfl⟩

theorem canRequest_halfOpen_at_max (cb : CircuitBreaker) (t : Int)
    (hs : cb.state = CircuitState.HALF_OPEN)
    (hm : cb.options.halfOpenMax ≤ cb.halfOpenAttempts) :
    (cb.canRequest t).1 = false ∧ (cb.canRequest t).2.state = CircuitState.HALF_OPEN ∧
    (cb.canRequest t).2.halfOpenAttempts = cb.halfOpenAttempts ∧
    (cb.canRequest t).2.options = cb.options := by
  rcases cb with ⟨opts, st, f, su, lf, oa, ha, sts⟩
  dsimp only at hs hm
  subst hs
  simp only [CircuitBreaker.canRequest]
  rw [if_neg (Nat.not_lt.mpr hm)]
  exact ⟨rfl, rfl, rfl, rfl⟩

/-- While the breaker sits in HALF_OPEN with its probe allowance used up,
every further `canRequest` call is rejected. -/
theorem canRequestSeq_halfOpen_rejected (ss : List Int) : ∀ cb : CircuitBreaker,
    cb.state = CircuitState.HALF_OPEN → cb.options.halfOpenMax ≤ cb.halfOpenAttempts →
    (cb.canRequestSeq ss).1 = ss.map (fun _ => false) := by
  induction ss with
  | nil => intro cb _ _; rfl
  | cons t ts ih =>
    intro cb hs hm
    obtain ⟨h1, h2, h3, h4⟩ := canRequest_halfOpen_at_max cb t hs hm
    show ((cb.canRequest t).1 :: ((cb.canRequest t).2.canRequestSeq ts).1, _).1
      = false :: ts.map (fun _ => false)
    rw [h1, ih (cb.canRequest t).2 h2 (by rw [h3, h4]; exact hm)]

/-- While the breaker sits in OPEN inside the reset timeout, every
`canRequest` call is rejected. -/
theorem canRequestSeq_open_early (ss : List Int) : ∀ cb : CircuitBreaker,
    cb.state = CircuitState.OPEN →
    (∀ s ∈ ss, s - cb.openedAt < cb.options.resetTimeout) →
    (cb.canRequestSeq ss).1 = ss.map (fun _ => false) := by
  induction ss with
  | nil => intro cb _ _; rfl
  | cons t ts ih =>
    intro cb hs hss
    obtain ⟨h1, h2, h3, h4⟩ := canRequest_open_early cb t hs
      (hss t (List.mem_cons_self t ts))
    show ((cb.canRequest t).1 :: ((cb.canRequest t).2.canRequestSeq ts).1, _).1
      = false :: ts.map (fun _ => false)
    rw [h1, ih (cb.canRequest t).2 h2]
    intro s hsmem
    rw [h3, h4]
    exact hss s (List.mem_cons_of_mem t hsmem)

theorem onFailure_closed_noTrip (cb : CircuitBreaker) (t : Int)
    (hs : cb.state = CircuitState.CLOSED) (hW : 0 < cb.options.monitorWindow)
    (hkeep : ∀ x ∈ cb.failures, t - x < cb.options.monitorWindow)
    (hlen : cb.failures.length + 1 < cb.options.failureThreshold) :
    (cb.onFailure t).state = CircuitState.CLOSED ∧
    (cb.onFailure t).failures = cb.failures ++ [t] ∧
    (cb.onFailure t).options = cb.options ∧
    (cb.onFailure t).openedAt = cb.openedAt := by
  rcases cb with ⟨opts, st, f, su, lf, oa, ha, sts⟩
  dsimp only at hs hW hkeep hlen
  subst hs
  simp only [CircuitBreaker.onFailure]
  have hfilter : (f ++ [t]).filter (fun x => decide (t - x < opts.monitorWindow))
      = f ++ [t] := by
    refine List.filter_eq_self.mpr ?_
    intro x hx
    rcases List.mem_append.mp hx with hm | hm
    · exact decide_eq_true (hkeep x hm)
    · rw [List.mem_singleton.mp hm]
      exact decide_eq_true (by omega)
  rw [hfilter, if_neg (by rw [List.length_append, List.length_singleton]; omega)]
  exact ⟨rfl, rfl, rfl, rfl⟩

theorem onFailure_closed_trip (cb : CircuitBreaker) (t : Int)
    (hs : cb.state = CircuitState.CLOSED) (hW : 0 < cb.options.monitorWindow)
    (hkeep : ∀ x ∈ cb.failures, t - x < cb.options.monitorWindow)
    (hlen : cb.options.failureThreshold ≤ cb.failures.length + 1) :
    (cb.onFailure t).state = CircuitState.OPEN ∧
    (cb.onFailure t).openedAt = t ∧
    (cb.onFailure t).options = cb.options := by
  rcases cb with ⟨opts, st, f, su, lf, oa, ha, sts⟩
  dsimp only at hs hW hkeep hlen
  subst hs
  simp only [CircuitBreaker.onFailure, CircuitBreaker.transitionTo]
  have hfilter : (f ++ [t]).filter (fun x => decide (t - x < opts.monitorWindow))
      = f ++ [t] := by
    refine List.filter_eq_self.mpr ?_
    intro x hx
    rcases List.mem_append.mp hx with hm | hm
    · exact decide_eq_true (hkeep x hm)
    · rw [List.mem_singleton.mp hm]
      exact decide_eq_true (by omega)
  rw [hfilter, if_pos (by rw [List.length_append, List.length_singleton]; omega)]
  exact ⟨rfl, rfl, rfl⟩

/-- Feeding failures to a CLOSED breaker while the count stays strictly
below the threshold keeps it CLOSED and simply appends to the failure
log, provided all timestamps involved are nondecreasing and pairwise
within the monitor window. -/
theorem onFailureSeq_closed (ts : List Int) : ∀ cb : CircuitBreaker,
    cb.state = CircuitState.CLOSED → 0 < cb.options.monitorWindow →
    cb.failures.length + ts.length < cb.options.failureThreshold →
    List.Pairwise (fun a c => a ≤ c ∧ c - a < cb.options.monitorWindow)
      (cb.failures ++ ts) →
    (cb.onFailureSeq ts).state = CircuitState.CLOSED ∧
    (cb.onFailureSeq ts).failures = cb.failures ++ ts ∧
    (cb.onFailureSeq ts).options = cb.options := by
  induction ts with
  | nil =>
    intro cb hs _ _ _
    exact ⟨hs, (List.append_nil _).symm, rfl⟩
  | cons t ts2 ih =>
    intro cb hs hW hlen hpair
    have hkeep : ∀ x ∈ cb.failures, t - x < cb.options.monitorWindow := by
      intro x hx
      obtain ⟨-, -, hcross⟩ := List.pairwise_append.mp hpair
      exact (hcross x hx t (List.mem_cons_self t ts2)).2
    obtain ⟨h1, h2, h3, -⟩ := onFailure_closed_noTrip cb t hs hW hkeep
      (by simp at hlen ⊢; omega)
    have hstep : cb.onFailureSeq (t :: ts2) = (cb.onFailure t).onFailureSeq ts2 := rfl
    rw [hstep]
    have hpair2 : List.Pairwise
        (fun a c => a ≤ c ∧ c - a < (cb.onFailure t).options.monitorWindow)
        ((cb.onFailure t).failures ++ ts2) := by
      rw [h2, h3, List.append_assoc]
      exact hpair
    obtain ⟨g1, g2, g3⟩ := ih (cb.onFailure t) h1
      (by rw [h3]; exact hW)
      (by rw [h2, h3, List.length_append]; simp at hlen ⊢; omega)
      hpair2
    refine ⟨g1, ?_, by rw [g3, h3]⟩
    rw [g2, h2, List.append_assoc]
    rfl

/-- C4 (amended): starting CLOSED with an empty failure log, `T` calls to
`onFailure` at nondecreasing timestamps whose pairwise gaps are all
strictly below `monitorWindow` (in particular, total span `< W_m`; a span
of exactly `W_m` is pruned and does not trip) leave the breaker OPEN with
`openedAt` equal to the last failure time, and every subsequent
`canRequest` call made strictly less than `resetTimeout` after `openedAt`
returns `false`. -/
theorem claim_C4_trip_and_reject (cb : CircuitBreaker) (ts : List Int) (tl : Int)
    (ss : List Int)
    (hs : cb.state = CircuitState.CLOSED) (hf : cb.failures = [])
    (hW : 0 < cb.options.monitorWindow)
    (hT : ts.length + 1 = cb.options.failureThreshold)
    (hpair : List.Pairwise (fun a c => a ≤ c ∧ c - a < cb.options.monitorWindow)
      (ts ++ [tl]))
    (hss : ∀ s ∈ ss, s - tl < cb.options.resetTimeout) :
    (cb.onFailureSeq (ts ++ [tl])).state = CircuitState.OPEN ∧
    (cb.onFailureSeq (ts ++ [tl])).openedAt = tl ∧
    ((cb.onFailureSeq (ts ++ [tl])).canRequestSeq ss).1 = ss.map (fun _ => false) := by
  have hpair0 : List.Pairwise (fun a c => a ≤ c ∧ c - a < cb.options.monitorWindow)
      (cb.failures ++ ts) := by
    rw [hf]
    exact (List.pairwise_append.mp hpair).1
  obtain ⟨h1, h2, h3⟩ := onFailureSeq_closed ts cb hs hW
    (by rw [hf]; simp; omega) hpair0
  have hseq : cb.onFailureSeq (ts ++ [tl]) = (cb.onFailureSeq ts).onFailure tl := by
    rw [CircuitBreaker.onFailureSeq, CircuitBreaker.onFailureSeq, List.foldl_append]
    rfl
  have hkeep : ∀ x ∈ (cb.onFailureSeq ts).failures,
      tl - x < (cb.onFailureSeq ts).options.monitorWindow := by
    intro x hx
    rw [h2, hf] at hx
    rw [h3]
    obtain ⟨-, -, hcross⟩ := List.pairwise_append.mp hpair
    exact (hcross x (by simpa using hx) tl (List.mem_singleton_self tl)).2
  obtain ⟨g1, g2, g3⟩ := onFailure_closed_trip (cb.onFailureSeq ts) tl h1
    (by rw [h3]; exact hW) hkeep
    (by rw [h2, h3, hf]; simp; omega)
  rw [hseq]
  refine ⟨g1, g2, ?_⟩
  refine canRequestSeq_open_early ss _ g1 ?_
  intro s hsmem
  rw [g2, g3, h3]
  exact hss s hsmem

/-- Witness for C4 (amended): threshold 2, monitor window 10000 ms;
failures at t = 0 and t = 9999 trip the breaker at 9999, and probes at
10000 and 24997 (both less than 9999 + 15000) are rejected. -/
theorem claim_C4_trip_and_reject_witness :
    ((CircuitBreaker.onFailureSeq { options := ⟨2, 15000, 10000, 1⟩ } ([0] ++ [9999])).state
      = CircuitState.OPEN) ∧
    ((CircuitBreaker.onFailureSeq { options := ⟨2, 15000, 10000, 1⟩ } ([0] ++ [9999])).openedAt
      = 9999) ∧
    (((CircuitBreaker.onFailureSeq { options := ⟨2, 15000, 10000, 1⟩ }
      ([0] ++ [9999])).canRequestSeq [10000, 24997]).1 = [false, false]) := by
  have h := claim_C4_trip_and_reject { options := ⟨2, 15000, 10000, 1⟩ } [0] 9999
    [10000, 24997] rfl rfl (by decide) rfl
    (by
      constructor
      · intro c hc
        rw [List.mem_singleton.mp hc]
        exact ⟨by decide, by decide⟩
      · exact List.pairwise_singleton _ _)
    (by
      intro s hsmem
      rcases List.mem_cons.mp hsmem with h0 | h0
      · rw [h0]; decide
      · rw [List.mem_singleton.mp h0]; decide)
  exact h

/-- C4 counterexample: with threshold T = 2 and monitor window
W_m = 10 ms, two failures at t = 0 and t = 10 — timestamps that lie
within one (closed) interval of length exactly W_m — do NOT open the
breaker: the pruning predicate `now - t < monitorWindow` is strict, so
the first failure is dropped and the breaker stays CLOSED, and the next
`canRequest` is admitted. -/
theorem claim_C4_counterexample :
    ((CircuitBreaker.onFailure (CircuitBreaker.onFailure
      { options := ⟨2, 15000, 10, 1⟩ } 0) 10).state = CircuitState.CLOSED) ∧
    (((CircuitBreaker.onFailure (CircuitBreaker.onFailure
      { options := ⟨2, 15000, 10, 1⟩ } 0) 10).canRequest 10).1 = true) := by
  decide

/-- C1 (amended): with `halfOpenMax = 1`, after the breaker has been OPEN
for at least `resetTimeout`, the first `canRequest` returns `true` and
moves the state to HALF_OPEN with `halfOpenAttempts = 0` — the transition
admit is not counted against `halfOpenMax`. The next `canRequest` is
therefore also admitted (incrementing `halfOpenAttempts` to 1), and only
from the third call on is every `canRequest` rejected until the probe
completes: at most `halfOpenMax + 1 = 2` calls return `true` while the
breaker is HALF_OPEN. -/
theorem claim_C1_half_open_admits (cb : CircuitBreaker) (now now2 : Int) (ss : List Int)
    (hs : cb.state = CircuitState.OPEN)
    (hmax : cb.options.halfOpenMax = 1)
    (hge : cb.options.resetTimeout ≤ now - cb.openedAt) :
    ((cb.canRequest now).1 = true ∧
      (cb.canRequest now).2.state = CircuitState.HALF_OPEN ∧
      (cb.canRequest now).2.halfOpenAttempts = 0) ∧
    (((cb.canRequest now).2.canRequest now2).1 = true ∧
      ((cb.canRequest now).2.canRequest now2).2.state = CircuitState.HALF_OPEN ∧
      ((cb.canRequest now).2.canRequest now2).2.halfOpenAttempts = 1) ∧
    ((((cb.canRequest now).2.canRequest now2).2.canRequestSeq ss).1
      = ss.map (fun _ => false)) := by
  obtain ⟨h1, h2, h3, h4⟩ := canRequest_open_elapsed cb now hs hge
  obtain ⟨g1, g2, g3, g4⟩ := canRequest_halfOpen_admit (cb.canRequest now).2 now2 h2
    (by rw [h3, h4, hmax]; exact Nat.zero_lt_one)
  refine ⟨⟨h1, h2, h3⟩, ⟨g1, g2, by rw [g3, h3]⟩, ?_⟩
  refine canRequestSeq_halfOpen_rejected ss _ g2 ?_
  rw [g3, g4, h3, h4, hmax]

/-- Witness for C1 (amended): threshold 1, reset timeout 15000; the
breaker opens at t = 0 and is probed three times at t = 15000. -/
theorem claim_C1_half_open_admits_witness :
    (((CircuitBreaker.onFailure { options := ⟨1, 15000, 10000, 1⟩ } 0).canRequest 15000).1
      = true ∧
     ((CircuitBreaker.onFailure { options := ⟨1, 15000, 10000, 1⟩ } 0).canRequest 15000).2.state
      = CircuitState.HALF_OPEN ∧
     ((CircuitBreaker.onFailure
        { options := ⟨1, 15000, 10000, 1⟩ } 0).canRequest 15000).2.halfOpenAttempts = 0) ∧
    ((((CircuitBreaker.onFailure
        { options := ⟨1, 15000, 10000, 1⟩ } 0).canRequest 15000).2.canRequest 15000).1
      = true ∧
     (((CircuitBreaker.onFailure
        { options := ⟨1, 15000, 10000, 1⟩ } 0).canRequest 15000).2.canRequest 15000).2.state
      = CircuitState.HALF_OPEN ∧
     (((CircuitBreaker.onFailure
        { options := ⟨1, 15000, 10000, 1⟩ }
        0).canRequest 15000).2.canRequest 15000).2.halfOpenAttempts = 1) ∧
    (((((CircuitBreaker.onFailure
        { options := ⟨1, 15000, 10000, 1⟩ }
        0).canRequest 15000).2.canRequest 15000).2.canRequestSeq [15000, 15001]).1
      = [false, false]) :=
  claim_C1_half_open_admits (CircuitBreaker.onFailure { options := ⟨1, 15000, 10000, 1⟩ } 0)
    15000 15000 [15000, 15001] (by decide) (by decide) (by decide)

/-- C1 counterexample: with `halfOpenMax = 1`, after the OPEN → HALF_OPEN
transition admit, the claim says every subsequent `canRequest` returns
`false` until the probe completes; in the code the transition admit does
not increment `halfOpenAttempts`, so the second consecutive call is also
admitted (`true`), and two calls return `true` while HALF_OPEN. -/
theorem claim_C1_counterexample :
    (((CircuitBreaker.onFailure { options := ⟨1, 15000, 10000, 1⟩ } 0).canRequest 15000).1
      = true) ∧
    (((CircuitBreaker.onFailure { options := ⟨1, 15000, 10000, 1⟩ } 0).canRequest 15000).2.state
      = CircuitState.HALF_OPEN) ∧
    ((((CircuitBreaker.onFailure
      { options := ⟨1, 15000, 10000, 1⟩ } 0).canRequest 15000).2.canRequest 15000).1 = true) := by
  decide

/-- C5 (amended): the failure log is pruned to the monitor window only by
`onFailure` executed in the CLOSED state (relative to that call's time),
and cleared by `onSuccess` in HALF_OPEN; the other operations —
`canRequest`, `getState`, `onSuccess` in CLOSED, `onFailure` outside
CLOSED — leave the failure log untouched, so entries older than the
monitor window may persist across those operations. -/
theorem claim_C5_log_pruning (cb : CircuitBreaker) (now : Int) :
    (cb.state = CircuitState.CLOSED →
      ∀ t ∈ (cb.onFailure now).failures, now - t < cb.options.monitorWindow) ∧
    (cb.state = CircuitState.HALF_OPEN → (cb.onSuccess).failures = []) ∧
    ((cb.canRequest now).2.failures = cb.failures) ∧
    ((cb.getState now).2.failures = cb.failures) ∧
    (cb.state = CircuitState.CLOSED → (cb.onSuccess).failures = cb.failures) ∧
    (cb.state ≠ CircuitState.CLOSED → (cb.onFailure now).failures = cb.failures) := by
  rcases cb with ⟨opts, st, f, su, lf, oa, ha, sts⟩
  refine ⟨?_, ?_, ?_, ?_, ?_, ?_⟩
  · intro hs t ht
    dsimp only at hs
    subst hs
    simp only [CircuitBreaker.onFailure, CircuitBreaker.transitionTo] at ht
    have hmem : t ∈ (f ++ [now]).filter (fun x => decide (now - x < opts.monitorWindow)) := by
      revert ht
      split
      · intro ht
        exact ht
      · intro ht
        exact ht
    have hp := List.of_mem_filter hmem
    simp only [decide_eq_true_eq] at hp
    exact hp
  · intro hs
    dsimp only at hs
    subst hs
    rfl
  · cases st
    · rfl
    · show (if opts.resetTimeout ≤ now - oa then _ else _ : Bool × CircuitBreaker).2.failures = f
      split
      · rfl
      · rfl
    · show (if ha < opts.halfOpenMax then _ else _ : Bool × CircuitBreaker).2.failures = f
      split
      · rfl
      · rfl
  · cases st
    · rfl
    · show (if opts.resetTimeout ≤ now - oa then _ else _ : CircuitState × CircuitBreaker).2.failures = f
      split
      · rfl
      · rfl
    · rfl
  · intro hs
    dsimp only at hs
    subst hs
    rfl
  · intro hs
    dsimp only at hs
    cases st
    · exact absurd rfl hs
    · rfl
    · rfl

/-- Witness for C5 (amended): a CLOSED breaker whose stale entry at t = 0
is pruned by an `onFailure` at t = 20000, and a `canRequest` that leaves
the log unchanged. -/
theorem claim_C5_log_pruning_witness :
    (∀ t ∈ ((CircuitBreaker.onFailure { options := ⟨3, 15000, 10000, 1⟩ } 0).onFailure
      20000).failures, (20000 : Int) - t < 10000) ∧
    (((CircuitBreaker.onFailure
      { options := ⟨3, 15000, 10000, 1⟩ } 0).canRequest 7).2.failures = [0]) := by
  constructor
  · exact (claim_C5_log_pruning
      (CircuitBreaker.onFailure { options := ⟨3, 15000, 10000, 1⟩ } 0) 20000).1 (by decide)
  · rw [(claim_C5_log_pruning
      (CircuitBreaker.onFailure { options := ⟨3, 15000, 10000, 1⟩ } 0) 7).2.2.1]
    decide

/-- C5 counterexample: an `onSuccess` performed (at wall-clock time
t = 1 000 000) on a CLOSED breaker does not prune the failure log: the
entry logged at t = 0 is still present although it is far older than the
10 000 ms monitor window relative to that most recent operation. -/
theorem claim_C5_counterexample :
    ((CircuitBreaker.onSuccess (CircuitBreaker.onFailure
      { options := ⟨3, 15000, 10000, 1⟩ } 0)).failures = [0]) ∧
    ¬ logWithinWindow
      (CircuitBreaker.onSuccess (CircuitBreaker.onFailure
        { options := ⟨3, 15000, 10000, 1⟩ } 0)) 1000000 := by
  refine ⟨by decide, fun h => ?_⟩
  have h0 := h 0 (by decide)
  revert h0
  decide

/-! ## Load balancers (`src/load-balancers/`) -/

structure Backend where
  host : String
  port : Int
  name : String
  weight : Option Int := none
  healthy : Option Bool := none
deriving DecidableEq, Repr

/-- The healthy filter used by every balancer: `b.healthy !== false`. -/
def Backend.isHealthy (b : Backend) : Bool := b.healthy != some false

def dummyBackend : Backend := ⟨"", 0, "", none, none⟩

/-- The three backends configured in `gateway.ts`. -/
def backendA : Backend := ⟨"localhost", 3001, "Backend-A", some 3, some true⟩

def backendB : Backend := ⟨"localhost", 3002, "Backend-B", some 2, some true⟩

def backendC : Backend := ⟨"localhost", 3003, "Backend-C", some 1, some true⟩

def gatewayBackends : List Backend := [backendA, backendB, backendC]

/-! ### Weighted round robin (`weighted-round-robin.ts`) -/

/-- `backend.weight || 1`. -/
def effectiveWeight (b : Backend) : Int :=
  match b.weight with
  | none => 1
  | some w => if w = 0 then 1 else w

def buildWeightedList (backends : List Backend) : List Backend :=
  (backends.filter Backend.isHealthy).flatMap
    (fun b => List.replicate (effectiveWeight b).toNat b)

structure WeightedRoundRobinBalancer where
  backends : List Backend
  index : Nat
  weightedList : List Backend
deriving DecidableEq, Repr

def WeightedRoundRobinBalancer.new (backends : List Backend) : WeightedRoundRobinBalancer :=
  ⟨backends, 0, buildWeightedList backends⟩

def WeightedRoundRobinBalancer.select (s : WeightedRoundRobinBalancer) :
    Option Backend × WeightedRoundRobinBalancer :=
  if s.weightedList.length = 0 then (none, s)
  else (some (s.weightedList.getD (s.index % s.weightedList.length) dummyBackend),
        { s with index := s.index + 1 })

/-- `n` successive selections, collecting the answers. -/
def WeightedRoundRobinBalancer.selectN (s : WeightedRoundRobinBalancer) :
    Nat → List (Option Backend) × WeightedRoundRobinBalancer
  | 0 => ([], s)
  | n + 1 =>
    let p := s.select
    let q := p.2.selectN n
    (p.1 :: q.1, q.2)

/-! ### IP hash (`ip-hash.ts`) -/

/-- `ToUint32`: JavaScript unsigned 32-bit wrap (`>>> 0`). -/
def toUint32 (n : Int) : Int := n % 4294967296

/-- `ToInt32`: JavaScript signed 32-bit wrap (the result of `|`, `&`,
`^`, `<<`). -/
def toInt32 (n : Int) : Int :=
  let m := toUint32 n
  if m < 2147483648 then m else m - 4294967296

/-- JavaScript `^` on two numbers: both wrapped to 32 bits, bitwise xor,
read back as a signed 32-bit integer. -/
def xor32 (a b : Int) : Int :=
  toInt32 (Int.ofNat (Nat.xor (toUint32 a).toNat (toUint32 b).toNat))

/-- One step of `hashCode`: `hash = ((hash << 5) - hash) + c` followed by
`hash = hash & hash` (a signed 32-bit wrap). The intermediate
`(hash << 5) - hash + c` stays below 2^53, so double precision is exact
here. -/
def hashCodeStep (h : Int) (c : Nat) : Int :=
  toInt32 (toInt32 (toInt32 h * 32) - h + c)

def jsHashCode (s : String) : Int :=
  s.toList.foldl (fun h c => hashCodeStep h c.toNat) 0

/-- `clientIp || '127.0.0.1'`: JavaScript `||` treats `undefined` and the
empty string as falsy. -/
def jsOrDefaultKey (v : Option String) (d : String) : String :=
  match v with
  | none => d
  | some s => if s = "" then d else s

def IpHashBalancer.select (backends : List Backend) (clientIp : Option String) :
    Option Backend :=
  let healthy := backends.filter Backend.isHealthy
  if healthy.length = 0 then none
  else
    let ip := jsOrDefaultKey clientIp "127.0.0.1"
    let hash := jsHashCode ip
    let index := hash.natAbs % healthy.length
    some (healthy.getD index dummyBackend)

/-! ### Consistent hash (`consistent-hash.ts`)

The source hash is FNV-1a written in JavaScript *without* `Math.imul`:
`hash = (hash * 0x01000193) >>> 0` multiplies a signed 32-bit value by
the FNV prime as IEEE-754 doubles. The exact product can exceed 2^53, so
it is rounded to the nearest representable double (ties to even) before
the unsigned 32-bit truncation. `roundDouble` models that rounding
exactly on integers. -/

/-- Base-2 logarithm by fuel (structural recursion, so it evaluates by
`decide`); agrees with `Nat.log2` for arguments below `2 ^ fuel`. -/
def log2fuel : Nat → Nat → Nat
  | 0, _ => 0
  | fuel + 1, n => if 2 ≤ n then log2fuel fuel (n / 2) + 1 else 0

/-- Round a natural number to the nearest IEEE-754 double (53-bit
significand), ties to even. Exact below 2^53; the arguments arising here
are below 2^64. -/
def roundPos53 (n : Nat) : Nat :=
  if n < 9007199254740992 then n
  else
    let e := log2fuel 64 n - 52
    let g := 2 ^ e
    let r := n % g
    let q := n / g
    if 2 * r < g then q * g
    else if g < 2 * r then (q + 1) * g
    else if q % 2 = 0 then q * g else (q + 1) * g

/-- Round an integer to the nearest IEEE-754 double. -/
def roundDouble (x : Int) : Int :=
  if x < 0 then -(roundPos53 x.natAbs : Int) else (roundPos53 x.natAbs : Int)

/-- One step of the source's `hash` function:
`hash ^= c; hash = (hash * 0x01000193) >>> 0` in JavaScript number
semantics. -/
def fnvStepJS (h : Int) (c : Nat) : Int :=
  toUint32 (roundDouble (xor32 h (Int.ofNat c) * 16777619))

/-- The source's `hash(key)`: FNV-1a with the multiply performed in
double precision. -/
def hashJS (key : String) : Int :=
  key.toList.foldl (fun h ch => fnvStepJS h ch.toNat) 2166136261

/-- Exact 32-bit FNV-1a (offset 0x811C9DC5, prime 0x01000193, unsigned
arithmetic) — the hash named by the specification. -/
def fnv1a (key : String) : Int :=
  Int.ofNat (key.toList.foldl
    (fun h ch => (Nat.xor h ch.toNat * 16777619) % 4294967296) 2166136261)

structure RingEntry where
  position : Int
  backend : Backend
deriving DecidableEq, Repr

def dummyEntry : RingEntry := ⟨0, dummyBackend⟩

/-- The label of virtual node `i` of a backend:
`host + ":" + port + ":vnode" + i`. -/
def vnodeKey (b : Backend) (i : Nat) : String :=
  b.host ++ ":" ++ toString b.port ++ ":vnode" ++ toString i

/-- `buildRing`, parametrised by the hash: each healthy backend
contributes `virtualNodes` entries, sorted by position (a stable sort,
like `Array.prototype.sort`). -/
def buildRingWith (hash : String → Int) (backends : List Backend) (virtualNodes : Nat) :
    List RingEntry :=
  let healthy := backends.filter Backend.isHealthy
  let entries := healthy.flatMap (fun b =>
    (List.range virtualNodes).map (fun i => RingEntry.mk (hash (vnodeKey b i)) b))
  List.insertionSort (fun a b => a.position ≤ b.position) entries

/-- The source's `buildRing` (its hash is `hashJS`). -/
def buildRing (backends : List Backend) (virtualNodes : Nat) : List RingEntry :=
  buildRingWith hashJS backends virtualNodes

/-- The `while (low < high)` binary search of `select`, with explicit
fuel so that it evaluates structurally. Each iteration shrinks
`high - low` by at least one, so any fuel of at least `high - low`
reaches the loop's exit; callers pass `ring.length`. -/
def lowerBoundLoop (ring : List RingEntry) (position : Int) :
    Nat → Nat → Nat → Nat
  | 0, low, _ => low
  | fuel + 1, low, high =>
    if low < high then
      let mid := (low + high) / 2
      if (ring.getD mid dummyEntry).position < position then
        lowerBoundLoop ring position fuel (mid + 1) high
      else
        lowerBoundLoop ring position fuel low mid
    else low

/-- `select`, parametrised by the hash used on the client key. -/
def chSelectWith (hash : String → Int) (ring : List RingEntry)
    (clientIp : Option String) : Option Backend :=
  if ring.length = 0 then none
  else
    let key := jsOrDefaultKey clientIp "127.0.0.1"
    let position := hash key
    let low := lowerBoundLoop ring position ring.length 0 (ring.length - 1)
    if (ring.getD low dummyEntry).position < position then
      some ((ring.getD 0 dummyEntry).backend)
    else
      some ((ring.getD low dummyEntry).backend)

/-- The source's `ConsistentHashBalancer.select` over a built ring. -/
def chSelect (ring : List RingEntry) (clientIp : Option String) : Option Backend :=
  chSelectWith hashJS ring clientIp

/-- The selection claim C7 describes, spelled from the specification's
words: the ring is built with exact FNV-1a and the chosen entry is the
one at the smallest position ≥ fnv1a(key), wrapping to the entry with
the smallest position. -/
def specSelect (backends : List Backend) (virtualNodes : Nat)
    (clientIp : Option String) : Option Backend :=
  let ring := buildRingWith fnv1a backends virtualNodes
  if ring.length = 0 then none
  else
    let key := jsOrDefaultKey clientIp "127.0.0.1"
    let position := fnv1a key
    match ring.find? (fun e => decide (position ≤ e.position)) with
    | some e => some e.backend
    | none => some ((ring.getD 0 dummyEntry).backend)

/-- The sort order of the ring. -/
def ringLe (a b : RingEntry) : Prop := a.position ≤ b.position

instance : DecidableRel ringLe := fun a b => Int.decLe a.position b.position

instance : IsTotal RingEntry ringLe := ⟨fun a b => le_total a.position b.position⟩

instance : IsTrans RingEntry ringLe := ⟨fun _ _ _ hab hbc => le_trans hab hbc⟩

instance : IsRefl RingEntry ringLe := ⟨fun a => le_refl a.position⟩

theorem buildRingWith_eq (hash : String → Int) (backends : List Backend)
    (virtualNodes : Nat) :
    buildRingWith hash backends virtualNodes
      = List.insertionSort ringLe ((backends.filter Backend.isHealthy).flatMap (fun b =>
          (List.range virtualNodes).map (fun i => RingEntry.mk (hash (vnodeKey b i)) b))) :=
  rfl

theorem buildRingWith_sorted (hash : String → Int) (backends : List Backend)
    (virtualNodes : Nat) :
    List.Sorted ringLe (buildRingWith hash backends virtualNodes) := by
  rw [buildRingWith_eq]
  exact List.sorted_insertionSort ringLe _

theorem buildRingWith_perm (hash : String → Int) (backends : List Backend)
    (virtualNodes : Nat) :
    (buildRingWith hash backends virtualNodes).Perm
      ((backends.filter Backend.isHealthy).flatMap (fun b =>
        (List.range virtualNodes).map (fun i => RingEntry.mk (hash (vnodeKey b i)) b))) := by
  rw [buildRingWith_eq]
  exact List.perm_insertionSort ringLe _

/-- In a sorted ring, positions are monotone in the index. -/
theorem ring_getD_mono (ring : List RingEntry) (hsort : List.Sorted ringLe ring)
    (i j : Nat) (hij : i ≤ j) (hj : j < ring.length) :
    (ring.getD i dummyEntry).position ≤ (ring.getD j dummyEntry).position := by
  have hi : i < ring.length := lt_of_le_of_lt (by omega) hj
  rw [List.getD_eq_get ring dummyEntry hi, List.getD_eq_get ring dummyEntry hj]
  exact hsort.rel_get_of_le hij

/-- Correctness of the binary-search loop on a sorted ring: with enough
fuel it lands on an index `q` in `[low, high]` such that every earlier
entry is below the target and either `q` is the last index or its entry
is at or above the target. -/
theorem lowerBoundLoop_correct (ring : List RingEntry) (pos : Int)
    (hsort : List.Sorted ringLe ring) : ∀ (fuel low high : Nat),
    high - low ≤ fuel → low ≤ high → high < ring.length →
    (∀ i, i < low → (ring.getD i dummyEntry).position < pos) →
    (high = ring.length - 1 ∨ pos ≤ (ring.getD high dummyEntry).position) →
    low ≤ lowerBoundLoop ring pos fuel low high ∧
    lowerBoundLoop ring pos fuel low high ≤ high ∧
    (∀ i, i < lowerBoundLoop ring pos fuel low high →
      (ring.getD i dummyEntry).position < pos) ∧
    (lowerBoundLoop ring pos fuel low high = ring.length - 1 ∨
      pos ≤ (ring.getD (lowerBoundLoop ring pos fuel low high) dummyEntry).position) := by
  intro fuel
  induction fuel with
  | zero =>
    intro low high hfuel hle hlen hbelow hright
    have hlh : low = high := by omega
    subst hlh
    exact ⟨le_refl _, le_refl _, hbelow, hright⟩
  | succ fuel ih =>
    intro low high hfuel hle hlen hbelow hright
    by_cases hlt : low < high
    · have hname : lowerBoundLoop ring pos (fuel + 1) low high
          = if (ring.getD ((low + high) / 2) dummyEntry).position < pos then
              lowerBoundLoop ring pos fuel ((low + high) / 2 + 1) high
            else lowerBoundLoop ring pos fuel low ((low + high) / 2) := by
        rw [lowerBoundLoop, if_pos hlt]
      have hmidlo : low ≤ (low + high) / 2 := by omega
      have hmidhi : (low + high) / 2 < high := by omega
      by_cases hcmp : (ring.getD ((low + high) / 2) dummyEntry).position < pos
      · rw [hname, if_pos hcmp]
        obtain ⟨r1, r2, r3, r4⟩ := ih ((low + high) / 2 + 1) high (by omega) (by omega) hlen
          (fun i hi => by
            by_cases hsmall : i < low
            · exact hbelow i hsmall
            · exact lt_of_le_of_lt
                (ring_getD_mono ring hsort i ((low + high) / 2) (by omega)
                  (by omega)) hcmp)
          hright
        exact ⟨by omega, r2, r3, r4⟩
      · rw [hname, if_neg hcmp]
        have := ih low ((low + high) / 2) (by omega) (by omega) (by omega) hbelow
          (Or.inr (not_lt.mp hcmp))
        exact ⟨this.1, by omega, this.2.2.1, this.2.2.2⟩
    · have hlh : low = high := by omega
      subst hlh
      have hname : lowerBoundLoop ring pos (fuel + 1) low low = low := by
        rw [lowerBoundLoop, if_neg hlt]
      rw [hname]
      exact ⟨le_refl _, le_refl _, hbelow, hright⟩

/-- The lookup semantics of `select` over any sorted non-empty ring:
when some entry sits at or above the hashed position, the first such
entry (in index order, hence the one with the smallest such position) is
returned; otherwise the search wraps to the entry at index 0. -/
theorem chSelectWith_spec (hash : String → Int) (ring : List RingEntry)
    (clientIp : Option String) (hsort : List.Sorted ringLe ring) (hne : ring ≠ []) :
    ((∃ e ∈ ring, hash (jsOrDefaultKey clientIp "127.0.0.1") ≤ e.position) →
      ∃ j, ∃ hj : j < ring.length,
        chSelectWith hash ring clientIp = some ((ring.get ⟨j, hj⟩).backend) ∧
        hash (jsOrDefaultKey clientIp "127.0.0.1") ≤ (ring.get ⟨j, hj⟩).position ∧
        ∀ i, i < j → (ring.getD i dummyEntry).position
          < hash (jsOrDefaultKey clientIp "127.0.0.1")) ∧
    ((∀ e ∈ ring, e.position < hash (jsOrDefaultKey clientIp "127.0.0.1")) →
      chSelectWith hash ring clientIp = some ((ring.getD 0 dummyEntry).backend)) := by
  have hlen : ring.length ≠ 0 := fun h => hne (List.length_eq_zero.mp h)
  obtain ⟨q0, q1, q2, q3⟩ := lowerBoundLoop_correct ring
    (hash (jsOrDefaultKey clientIp "127.0.0.1")) hsort ring.length 0 (ring.length - 1)
    (by omega) (by omega) (by omega) (fun i hi => absurd hi (by omega)) (Or.inl rfl)
  have hq := lowerBoundLoop_correct ring
  set pos := hash (jsOrDefaultKey clientIp "127.0.0.1") with hpos
  set q := lowerBoundLoop ring pos ring.length 0 (ring.length - 1) with hqdef
  have hqlen : q < ring.length := by omega
  have hsel : chSelectWith hash ring clientIp
      = if (ring.getD q dummyEntry).position < pos then
          some ((ring.getD 0 dummyEntry).backend)
        else some ((ring.getD q dummyEntry).backend) := by
    rw [chSelectWith, if_neg hlen]
  constructor
  · intro hex
    have hnotlt : ¬ (ring.getD q dummyEntry).position < pos := by
      intro hqlt
      -- then every entry would be below the position
      have hall : ∀ i, i < ring.length → (ring.getD i dummyEntry).position < pos := by
        intro i hi
        rcases q3 with hq3 | hq3
        · by_cases hiq : i < q
          · exact q2 i hiq
          · have : i = q := by omega
            rw [this]
            exact hqlt
        · exact absurd hq3 (not_le.mpr hqlt)
      obtain ⟨e, he, hepos⟩ := hex
      obtain ⟨n, hn⟩ := List.mem_iff_get.mp he
      have := hall n.1 n.2
      rw [List.getD_eq_get ring dummyEntry n.2] at this
      rw [show ring.get ⟨n.1, n.2⟩ = ring.get n from rfl, hn] at this
      omega
    refine ⟨q, hqlen, ?_, ?_, q2⟩
    · rw [hsel, if_neg hnotlt, List.getD_eq_get ring dummyEntry hqlen]
    · rw [← List.getD_eq_get ring dummyEntry hqlen]
      omega
  · intro hall
    have hqlt : (ring.getD q dummyEntry).position < pos := by
      refine hall _ ?_
      rw [List.getD_eq_get ring dummyEntry hqlen]
      exact List.get_mem ring q hqlen
    rw [hsel, if_pos hqlt]

/-- C7 (amended): for every non-empty healthy backend set and client key,
`ConsistentHashBalancer.select` works over a ring holding, for each
healthy backend, 150 entries at positions `h("host:port:vnode<i>")`,
sorted ascending, and returns the backend of the ring entry at the first
index whose position is ≥ `h(key)` (by sortedness, the smallest such
position), wrapping to index 0 when no entry qualifies — where `h` is
the source's FNV-1a variant `hashJS`, whose 32-bit multiply is performed
in IEEE-754 double precision (products beyond 2^53 are rounded), not
exact 32-bit FNV-1a. -/
theorem claim_C7_consistent_hash_lookup (backends : List Backend) (clientIp : Option String)
    (hne : buildRing backends 150 ≠ []) :
    List.Sorted ringLe (buildRing backends 150) ∧
    (buildRing backends 150).Perm ((backends.filter Backend.isHealthy).flatMap (fun b =>
      (List.range 150).map (fun i => RingEntry.mk (hashJS (vnodeKey b i)) b))) ∧
    ((∃ e ∈ buildRing backends 150,
        hashJS (jsOrDefaultKey clientIp "127.0.0.1") ≤ e.position) →
      ∃ j, ∃ hj : j < (buildRing backends 150).length,
        chSelect (buildRing backends 150) clientIp
          = some (((buildRing backends 150).get ⟨j, hj⟩).backend) ∧
        hashJS (jsOrDefaultKey clientIp "127.0.0.1")
          ≤ ((buildRing backends 150).get ⟨j, hj⟩).position ∧
        ∀ i, i < j → ((buildRing backends 150).getD i dummyEntry).position
          < hashJS (jsOrDefaultKey clientIp "127.0.0.1")) ∧
    ((∀ e ∈ buildRing backends 150,
        e.position < hashJS (jsOrDefaultKey clientIp "127.0.0.1")) →
      chSelect (buildRing backends 150) clientIp
        = some (((buildRing backends 150).getD 0 dummyEntry).backend)) := by
  obtain ⟨h1, h2⟩ := chSelectWith_spec hashJS (buildRing backends 150) clientIp
    (buildRingWith_sorted hashJS backends 150) hne
  exact ⟨buildRingWith_sorted hashJS backends 150,
    buildRingWith_perm hashJS backends 150, h1, h2⟩

set_option maxRecDepth 100000 in
set_option maxHeartbeats 2000000 in
/-- Witness for C7 (amended): a single-backend ring and the key "u",
whose hash lies above every ring position, so the selection wraps to the
entry at index 0. -/
theorem claim_C7_consistent_hash_lookup_witness :
    chSelect (buildRing [⟨"a", 1, "X", none, none⟩] 150) (some "u")
      = some (((buildRing [⟨"a", 1, "X", none, none⟩] 150).getD 0 dummyEntry).backend) := by
  have h := claim_C7_consistent_hash_lookup [⟨"a", 1, "X", none, none⟩] (some "u")
    (by decide)
  exact h.2.2.2 (by decide)

set_option maxRecDepth 100000 in
set_option maxHeartbeats 4000000 in
/-- C7 counterexample: the claim prescribes exact 32-bit FNV-1a
(`fnv1a`), but the source computes `(hash * 0x01000193) >>> 0` on IEEE
doubles, losing low bits once products pass 2^53 (`hashJS`). For the
healthy backends `localhost:3001` / `localhost:3002` and client key
"192.168.0.7", the code's `select` returns Backend-A while the ring
lookup the claim describes (`specSelect`, built and probed with exact
FNV-1a) returns Backend-B. -/
theorem claim_C7_counterexample :
    chSelect (buildRing [backendA, backendB] 150) (some "192.168.0.7") = some backendA ∧
    specSelect [backendA, backendB] 150 (some "192.168.0.7") = some backendB := by
  decide

theorem selectN_trace (n : Nat) : ∀ (backs : List Backend) (i : Nat) (wl : List Backend),
    wl ≠ [] →
    ((WeightedRoundRobinBalancer.mk backs i wl).selectN n).1
      = (List.range n).map (fun j => some (wl.getD ((i + j) % wl.length) dummyBackend)) := by
  induction n with
  | zero => intro backs i wl hne; rfl
  | succ n ih =>
    intro backs i wl hne
    have hlen : wl.length ≠ 0 := fun h => hne (List.length_eq_zero.mp h)
    have hsel : (WeightedRoundRobinBalancer.mk backs i wl).select
        = (some (wl.getD (i % wl.length) dummyBackend),
           WeightedRoundRobinBalancer.mk backs (i + 1) wl) := by
      rw [WeightedRoundRobinBalancer.select, if_neg hlen]
    have hstep : ((WeightedRoundRobinBalancer.mk backs i wl).selectN (n + 1)).1
        = (WeightedRoundRobinBalancer.mk backs i wl).select.1
          :: ((WeightedRoundRobinBalancer.mk backs i wl).select.2.selectN n).1 := rfl
    rw [hstep, hsel]
    show some (wl.getD (i % wl.length) dummyBackend)
        :: ((WeightedRoundRobinBalancer.mk backs (i + 1) wl).selectN n).1 = _
    rw [ih backs (i + 1) wl hne, List.range_succ_eq_map, List.map_cons, List.map_map]
    have htail : List.map (fun j => some (wl.getD ((i + 1 + j) % wl.length) dummyBackend))
          (List.range n)
        = List.map ((fun j => some (wl.getD ((i + j) % wl.length) dummyBackend)) ∘ Nat.succ)
          (List.range n) := by
      refine List.map_congr_left ?_
      intro j _
      show some (wl.getD ((i + 1 + j) % wl.length) dummyBackend)
        = some (wl.getD ((i + (j + 1)) % wl.length) dummyBackend)
      have hadd : i + 1 + j = i + (j + 1) := by omega
      rw [hadd]
    simp only [Nat.add_zero]
    exact congrArg (List.cons _) htail

theorem selectN_state (n : Nat) : ∀ (backs : List Backend) (i : Nat) (wl : List Backend),
    wl ≠ [] →
    ((WeightedRoundRobinBalancer.mk backs i wl).selectN n).2
      = WeightedRoundRobinBalancer.mk backs (i + n) wl := by
  induction n with
  | zero => intro backs i wl hne; rfl
  | succ n ih =>
    intro backs i wl hne
    have hlen : wl.length ≠ 0 := fun h => hne (List.length_eq_zero.mp h)
    have hsel : (WeightedRoundRobinBalancer.mk backs i wl).select
        = (some (wl.getD (i % wl.length) dummyBackend),
           WeightedRoundRobinBalancer.mk backs (i + 1) wl) := by
      rw [WeightedRoundRobinBalancer.select, if_neg hlen]
    have hstep : ((WeightedRoundRobinBalancer.mk backs i wl).selectN (n + 1)).2
        = ((WeightedRoundRobinBalancer.mk backs i wl).select.2.selectN n).2 := rfl
    rw [hstep, hsel]
    show ((WeightedRoundRobinBalancer.mk backs (i + 1) wl).selectN n).2 = _
    rw [ih backs (i + 1) wl hne]
    congr 1
    omega

/-- In any six consecutive selections of the expanded list
`[A, A, A, B, B, C]`, A appears 3 times, B twice and C once, whatever
the starting index. -/
theorem wrr_window6_count (i : Nat) :
    (((List.range 6).map (fun j => some ((buildWeightedList gatewayBackends).getD
        ((i + j) % (buildWeightedList gatewayBackends).length) dummyBackend))).count
      (some backendA) = 3) ∧
    (((List.range 6).map (fun j => some ((buildWeightedList gatewayBackends).getD
        ((i + j) % (buildWeightedList gatewayBackends).length) dummyBackend))).count
      (some backendB) = 2) ∧
    (((List.range 6).map (fun j => some ((buildWeightedList gatewayBackends).getD
        ((i + j) % (buildWeightedList gatewayBackends).length) dummyBackend))).count
      (some backendC) = 1) := by
  have hmod : ∀ j : Nat, (i + j) % (buildWeightedList gatewayBackends).length
      = (i % 6 + j % 6) % 6 := by
    intro j
    rw [show (buildWeightedList gatewayBackends).length = 6 from rfl, Nat.add_mod]
  have h6 : i % 6 = 0 ∨ i % 6 = 1 ∨ i % 6 = 2 ∨ i % 6 = 3 ∨ i % 6 = 4 ∨ i % 6 = 5 := by
    omega
  rcases h6 with h | h | h | h | h | h <;> simp only [hmod, h] <;> exact ⟨by decide, by decide, by decide⟩

theorem wrr_count_window (k : Nat) : ∀ i : Nat,
    (((List.range (6 * k)).map (fun j => some ((buildWeightedList gatewayBackends).getD
        ((i + j) % (buildWeightedList gatewayBackends).length) dummyBackend))).count
      (some backendA) = 3 * k) ∧
    (((List.range (6 * k)).map (fun j => some ((buildWeightedList gatewayBackends).getD
        ((i + j) % (buildWeightedList gatewayBackends).length) dummyBackend))).count
      (some backendB) = 2 * k) ∧
    (((List.range (6 * k)).map (fun j => some ((buildWeightedList gatewayBackends).getD
        ((i + j) % (buildWeightedList gatewayBackends).length) dummyBackend))).count
      (some backendC) = k) := by
  induction k with
  | zero => intro i; exact ⟨rfl, rfl, rfl⟩
  | succ k ih =>
    intro i
    have hsplit : 6 * (k + 1) = 6 + 6 * k := by ring
    obtain ⟨a6, b6, c6⟩ := wrr_window6_count i
    obtain ⟨ak, bk, ck⟩ := ih (i + 6)
    rw [hsplit, List.range_add]
    simp only [List.map_append, List.count_append, List.map_map]
    have hshift : ∀ x : Backend,
        ((List.range (6 * k)).map ((fun j => some ((buildWeightedList gatewayBackends).getD
          ((i + j) % (buildWeightedList gatewayBackends).length) dummyBackend))
            ∘ (fun y => 6 + y))).count (some x)
        = ((List.range (6 * k)).map (fun j => some ((buildWeightedList gatewayBackends).getD
          ((i + 6 + j) % (buildWeightedList gatewayBackends).length) dummyBackend))).count
            (some x) := by
      intro x
      congr 1
      refine List.map_congr_left ?_
      intro j _
      show some ((buildWeightedList gatewayBackends).getD
          ((i + (6 + j)) % (buildWeightedList gatewayBackends).length) dummyBackend) = _
      have hadd : i + (6 + j) = i + 6 + j := by omega
      rw [hadd]
    rw [hshift backendA, hshift backendB, hshift backendC, a6, b6, c6, ak, bk, ck]
    refine ⟨by omega, by omega, by omega⟩

/-- C8: with the gateway's three healthy backends A, B, C of weights
3, 2, 1, the expanded list is `[A, A, A, B, B, C]`; the first six
selections of a freshly built weighted-round-robin balancer are
A, A, A, B, B, C in that order, the state after `i` selections is the
same list at index `i`, and any `6k` consecutive selections return A
exactly `3k` times, B exactly `2k` times and C exactly `k` times. -/
theorem claim_C8_weighted_round_robin (i k : Nat) :
    buildWeightedList gatewayBackends
      = [backendA, backendA, backendA, backendB, backendB, backendC] ∧
    ((WeightedRoundRobinBalancer.new gatewayBackends).selectN 6).1
      = [some backendA, some backendA, some backendA,
         some backendB, some backendB, some backendC] ∧
    ((WeightedRoundRobinBalancer.new gatewayBackends).selectN i).2
      = WeightedRoundRobinBalancer.mk gatewayBackends i (buildWeightedList gatewayBackends) ∧
    ((WeightedRoundRobinBalancer.mk gatewayBackends i
        (buildWeightedList gatewayBackends)).selectN (6 * k)).1.count (some backendA)
      = 3 * k ∧
    ((WeightedRoundRobinBalancer.mk gatewayBackends i
        (buildWeightedList gatewayBackends)).selectN (6 * k)).1.count (some backendB)
      = 2 * k ∧
    ((WeightedRoundRobinBalancer.mk gatewayBackends i
        (buildWeightedList gatewayBackends)).selectN (6 * k)).1.count (some backendC)
      = k := by
  obtain ⟨ak, bk, ck⟩ := wrr_count_window k i
  refine ⟨by decide, by decide, ?_, ?_, ?_, ?_⟩
  · have h := selectN_state i gatewayBackends 0 (buildWeightedList gatewayBackends) (by decide)
    rw [WeightedRoundRobinBalancer.new]
    rw [h, Nat.zero_add]
  · rw [selectN_trace (6 * k) gatewayBackends i (buildWeightedList gatewayBackends) (by decide)]
    exact ak
  · rw [selectN_trace (6 * k) gatewayBackends i (buildWeightedList gatewayBackends) (by decide)]
    exact bk
  · rw [selectN_trace (6 * k) gatewayBackends i (buildWeightedList gatewayBackends) (by decide)]
    exact ck

theorem ipHash_key_eq (backends : List Backend) (k1 k2 : Option String)
    (h : jsOrDefaultKey k1 "127.0.0.1" = jsOrDefaultKey k2 "127.0.0.1") :
    IpHashBalancer.select backends k1 = IpHashBalancer.select backends k2 := by
  rw [IpHashBalancer.select, IpHashBalancer.select, h]

theorem chSelect_key_eq (ring : List RingEntry) (k1 k2 : Option String)
    (h : jsOrDefaultKey k1 "127.0.0.1" = jsOrDefaultKey k2 "127.0.0.1") :
    chSelect ring k1 = chSelect ring k2 := by
  simp only [chSelect, chSelectWith]
  rw [h]

theorem ipHash_select_isSome (backends : List Backend) (k : Option String)
    (h : (backends.filter Backend.isHealthy).length ≠ 0) :
    ∃ b, IpHashBalancer.select backends k = some b := by
  rw [IpHashBalancer.select, if_neg h]
  exact ⟨_, rfl⟩

theorem chSelect_isSome (ring : List RingEntry) (k : Option String)
    (h : ring.length ≠ 0) : ∃ b, chSelect ring k = some b := by
  rw [chSelect, chSelectWith, if_neg h]
  dsimp only
  split
  · exact ⟨_, rfl⟩
  · exact ⟨_, rfl⟩

/-- C10 (implicit): for both hashing balancers, a `select` without a
client key (`undefined`) or with the empty string uses the literal key
"127.0.0.1" (`clientIp || '127.0.0.1'`), so for a fixed healthy set all
key-less selections deterministically return the same single backend. -/
theorem claim_C10_keyless_selection (backends : List Backend) (ring : List RingEntry) :
    IpHashBalancer.select backends none = IpHashBalancer.select backends (some "127.0.0.1") ∧
    IpHashBalancer.select backends (some "")
      = IpHashBalancer.select backends (some "127.0.0.1") ∧
    chSelect ring none = chSelect ring (some "127.0.0.1") ∧
    chSelect ring (some "") = chSelect ring (some "127.0.0.1") ∧
    ((backends.filter Backend.isHealthy).length ≠ 0 →
      ∃ b, IpHashBalancer.select backends none = some b ∧
        IpHashBalancer.select backends (some "") = some b ∧
        IpHashBalancer.select backends (some "127.0.0.1") = some b) ∧
    (ring.length ≠ 0 →
      ∃ b, chSelect ring none = some b ∧ chSelect ring (some "") = some b ∧
        chSelect ring (some "127.0.0.1") = some b) := by
  have hnone : jsOrDefaultKey none "127.0.0.1"
      = jsOrDefaultKey (some "127.0.0.1") "127.0.0.1" := by decide
  have hempty : jsOrDefaultKey (some "") "127.0.0.1"
      = jsOrDefaultKey (some "127.0.0.1") "127.0.0.1" := by decide
  refine ⟨ipHash_key_eq backends none _ hnone, ipHash_key_eq backends (some "") _ hempty,
    chSelect_key_eq ring none _ hnone, chSelect_key_eq ring (some "") _ hempty, ?_, ?_⟩
  · intro h
    obtain ⟨b, hb⟩ := ipHash_select_isSome backends (some "127.0.0.1") h
    exact ⟨b, by rw [ipHash_key_eq backends none _ hnone, hb],
      by rw [ipHash_key_eq backends (some "") _ hempty, hb], hb⟩
  · intro h
    obtain ⟨b, hb⟩ := chSelect_isSome ring (some "127.0.0.1") h
    exact ⟨b, by rw [chSelect_key_eq ring none _ hnone, hb],
      by rw [chSelect_key_eq ring (some "") _ hempty, hb], hb⟩

/-- Witness for C10: the gateway's backend list and a one-entry ring. -/
theorem claim_C10_keyless_selection_witness :
    (∃ b, IpHashBalancer.select gatewayBackends none = some b ∧
      IpHashBalancer.select gatewayBackends (some "") = some b ∧
      IpHashBalancer.select gatewayBackends (some "127.0.0.1") = some b) ∧
    (∃ b, chSelect [⟨5, backendA⟩] none = some b ∧
      chSelect [⟨5, backendA⟩] (some "") = some b ∧
      chSelect [⟨5, backendA⟩] (some "127.0.0.1") = some b) := by
  obtain ⟨-, -, -, -, h5, h6⟩ := claim_C10_keyless_selection gatewayBackends [⟨5, backendA⟩]
  exact ⟨h5 (by decide), h6 (by decide)⟩

/-! ### Least connections (`least-connections.ts`) -/

/-- The per-backend key of the connection counter map: `host + ":" + port`. -/
def connectionKey (b : Backend) : String := b.host ++ ":" ++ toString b.port

structure LeastConnectionsBalancer where
  backends : List Backend
  connections : String → Nat

/-- The constructor initialises every backend's counter to 0; absent keys
read as 0 through `… || 0`, so the constant-0 map is the same state. -/
def LeastConnectionsBalancer.new (backends : List Backend) : LeastConnectionsBalancer :=
  ⟨backends, fun _ => 0⟩

def LeastConnectionsBalancer.getConnections (s : LeastConnectionsBalancer) (b : Backend) :
    Nat := s.connections (connectionKey b)

def LeastConnectionsBalancer.select (s : LeastConnectionsBalancer) :
    Option Backend × LeastConnectionsBalancer :=
  let healthy := s.backends.filter Backend.isHealthy
  match healthy with
  | [] => (none, s)
  | b0 :: _ =>
    -- scan for the fewest active connections, first wins on ties
    let minBackend := healthy.foldl
      (fun acc b => if s.getConnections b < s.getConnections acc then b else acc) b0
    (some minBackend,
     ⟨s.backends,
      setFn s.connections (connectionKey minBackend) (s.getConnections minBackend + 1)⟩)

/-- Decrement with a floor of 0 (`Math.max(0, current - 1)`; `Nat`
subtraction is already clamped). -/
def LeastConnectionsBalancer.onRequestComplete (s : LeastConnectionsBalancer) (b : Backend) :
    LeastConnectionsBalancer :=
  ⟨s.backends, setFn s.connections (connectionKey b) (s.connections (connectionKey b) - 1)⟩

/-! ## The middleware pipeline (`middleware/pipeline.ts` and the five
stages wired in `gateway.ts`)

One request through
logger → cors → rate-limit → circuit-breaker+LB → proxy, with the
stateful collaborators passed explicitly: the active load balancer as a
`select` / `onRequestComplete` pair over its own state type, the breaker
registry as a map from backend name to breaker, and the upstream outcome
(response status, timeout, or transport error) as an input. The rate
limiter's decision record is the `consume` result the rate-limit stage
observes. -/

structure LBIface (σ : Type) where
  select : σ → Option Backend × σ
  onRequestComplete : Backend → σ → σ

def lcIface : LBIface LeastConnectionsBalancer :=
  ⟨LeastConnectionsBalancer.select, fun b s => s.onRequestComplete b⟩

inductive UpstreamOutcome
  | response (status : Nat)
  | timeout
  | transportError
deriving DecidableEq, Repr

/-- The selection loop of `CircuitBreakerMiddleware.handle`: up to
`backends.length` attempts; each asks the balancer for a candidate and
consults the candidate's breaker; a `null` candidate breaks out.
Returns the updated breaker map and balancer state, and the admitted
backend with its post-admission breaker, if any. -/
def cbAttempts {σ : Type} (lb : LBIface σ) (now : Int) :
    Nat → (String → CircuitBreaker) → σ →
    (String → CircuitBreaker) × σ × Option (Backend × CircuitBreaker)
  | 0, breakers, lbs => (breakers, lbs, none)
  | fuel + 1, breakers, lbs =>
    match lb.select lbs with
    | (none, lbs1) => (breakers, lbs1, none)
    | (some b, lbs1) =>
      let p := (breakers b.name).canRequest now
      let breakers1 := setFn breakers b.name p.2
      if p.1 then (breakers1, lbs1, some (b, p.2))
      else cbAttempts lb now fuel breakers1 lbs1

/-- `ProxyMiddleware.handle` after a backend was attached: map the
upstream outcome to breaker bookkeeping, the completion hook, and the
client-visible status (upstream status forwarded; 504 on timeout; 502 on
transport error; status ≥ 500 counts as a breaker failure, anything else
as a success). -/
def proxyStage {σ : Type} (lb : LBIface σ) (now : Int) (b : Backend) (cb : CircuitBreaker)
    (breakers : String → CircuitBreaker) (lbs : σ) (outcome : UpstreamOutcome) :
    Nat × (String → CircuitBreaker) × σ :=
  match outcome with
  | .response st =>
    let cb1 := if 500 ≤ st then cb.onFailure now else cb.onSuccess
    (st, setFn breakers b.name cb1, lb.onRequestComplete b lbs)
  | .timeout =>
    (504, setFn breakers b.name (cb.onFailure now), lb.onRequestComplete b lbs)
  | .transportError =>
    (502, setFn breakers b.name (cb.onFailure now), lb.onRequestComplete b lbs)

structure PipelineResult (σ : Type) where
  status : Nat
  proxyRan : Bool
  backend : Option Backend
  rateLimited : Bool
  allCircuitsOpen : Bool
  breakers : String → CircuitBreaker
  lbState : σ

/-- One request through the five-stage pipeline. The logger stage always
delegates; CORS terminates OPTIONS preflights with 204; the rate-limit
stage stops with 429 on a denied decision; the selection stage stops
with 503 when no candidate is admitted; otherwise the proxy stage runs. -/
def runPipeline {σ : Type} (method : String) (rate : RateLimitResult) (lb : LBIface σ)
    (attempts : Nat) (breakers : String → CircuitBreaker) (now : Int) (lbs : σ)
    (outcome : UpstreamOutcome) : PipelineResult σ :=
  if method = "OPTIONS" then
    { status := 204, proxyRan := false, backend := none, rateLimited := false,
      allCircuitsOpen := false, breakers := breakers, lbState := lbs }
  else if rate.allowed = false then
    { status := 429, proxyRan := false, backend := none, rateLimited := true,
      allCircuitsOpen := false, breakers := breakers, lbState := lbs }
  else
    let t := cbAttempts lb now attempts breakers lbs
    match t.2.2 with
    | none =>
      { status := 503, proxyRan := false, backend := none, rateLimited := false,
        allCircuitsOpen := true, breakers := t.1, lbState := t.2.1 }
    | some (b, cb) =>
      let pr := proxyStage lb now b cb t.1 t.2.1 outcome
      { status := pr.1, proxyRan := true, backend := some b, rateLimited := false,
        allCircuitsOpen := false, breakers := pr.2.1, lbState := pr.2.2 }

/-- Any backend the selection loop admits was returned by the `select`
call whose post-state the loop hands on, and was admitted by a
`canRequest` call on the registry `m` the loop held at that step: `m`'s
entry for the admitted backend stepped to exactly the attached breaker
`cb` while returning `true`, and the loop's output registry is `m` with
that entry overwritten by `cb`. -/
theorem cbAttempts_admit {σ : Type} (lb : LBIface σ) (now : Int) :
    ∀ (fuel : Nat) (breakers : String → CircuitBreaker) (lbs : σ)
    (b : Backend) (cb : CircuitBreaker),
    (cbAttempts lb now fuel breakers lbs).2.2 = some (b, cb) →
    ∃ (m : String → CircuitBreaker) (s0 : σ),
      lb.select s0 = (some b, (cbAttempts lb now fuel breakers lbs).2.1) ∧
      (m b.name).canRequest now = (true, cb) ∧
      (cbAttempts lb now fuel breakers lbs).1 = setFn m b.name cb := by
  intro fuel
  induction fuel with
  | zero =>
    intro breakers lbs b cb h
    cases h
  | succ fuel ih =>
    intro breakers lbs b cb h
    rcases hsel : lb.select lbs with ⟨ob, lbs1⟩
    cases ob with
    | none =>
      have heq : cbAttempts lb now (fuel + 1) breakers lbs = (breakers, lbs1, none) := by
        rw [cbAttempts, hsel]
      rw [heq] at h
      cases h
    | some b1 =>
      by_cases hOK : ((breakers b1.name).canRequest now).1 = true
      · have heq : cbAttempts lb now (fuel + 1) breakers lbs =
            (setFn breakers b1.name ((breakers b1.name).canRequest now).2, lbs1,
             some (b1, ((breakers b1.name).canRequest now).2)) := by
          rw [cbAttempts, hsel]
          dsimp only
          rw [if_pos hOK]
        rw [heq] at h ⊢
        obtain ⟨hb, hcb⟩ := Prod.mk.injEq .. ▸ (Option.some.injEq .. ▸ h)
        subst hb
        refine ⟨breakers, lbs, ?_, ?_, ?_⟩
        · rw [hsel]
        · rw [Prod.ext_iff]
          exact ⟨hOK, hcb⟩
        · rw [hcb]
      · have heq : cbAttempts lb now (fuel + 1) breakers lbs =
            cbAttempts lb now fuel
              (setFn breakers b1.name ((breakers b1.name).canRequest now).2) lbs1 := by
          rw [cbAttempts, hsel]
          dsimp only
          rw [if_neg hOK]
        rw [heq] at h ⊢
        exact ih _ _ b cb h

/-- C6: the proxy stage runs only when the rate-limit decision was
allowed and the attached backend's breaker admitted the request via
`canRequest`: the attached backend `b` and its breaker `cb` are exactly
the pair the pipeline's selection loop produced, `b` came out of the
`select` call whose post-state the loop handed on, and the registry `m`
the loop consulted — pinned down by the loop's output registry being
`setFn m b.name cb` — answered `(true, cb)` from `canRequest` at `b`'s
entry. A denied rate decision ends the pipeline with 429 and a
fully-refusing selection loop ends it with 503, in both cases without
the proxy stage running. -/
theorem claim_C6_admission_gating {σ : Type} (method : String) (rate : RateLimitResult)
    (lb : LBIface σ) (attempts : Nat) (breakers : String → CircuitBreaker) (now : Int)
    (lbs : σ) (outcome : UpstreamOutcome) :
    ((runPipeline method rate lb attempts breakers now lbs outcome).proxyRan = true →
      rate.allowed = true ∧
      ∃ b cb,
        (runPipeline method rate lb attempts breakers now lbs outcome).backend = some b ∧
        (cbAttempts lb now attempts breakers lbs).2.2 = some (b, cb) ∧
        ∃ (m : String → CircuitBreaker) (s0 : σ),
          lb.select s0 = (some b, (cbAttempts lb now attempts breakers lbs).2.1) ∧
          (m b.name).canRequest now = (true, cb) ∧
          (cbAttempts lb now attempts breakers lbs).1 = setFn m b.name cb) ∧
    (¬ method = "OPTIONS" → rate.allowed = false →
      (runPipeline method rate lb attempts breakers now lbs outcome).status = 429 ∧
      (runPipeline method rate lb attempts breakers now lbs outcome).proxyRan = false) ∧
    (¬ method = "OPTIONS" → rate.allowed = true →
      (cbAttempts lb now attempts breakers lbs).2.2 = none →
      (runPipeline method rate lb attempts breakers now lbs outcome).status = 503 ∧
      (runPipeline method rate lb attempts breakers now lbs outcome).proxyRan = false) := by
  refine ⟨?_, ?_, ?_⟩
  · intro hrun
    by_cases hm : method = "OPTIONS"
    · rw [runPipeline, if_pos hm] at hrun
      exact Bool.noConfusion hrun
    · by_cases ha : rate.allowed = false
      · rw [runPipeline, if_neg hm, if_pos ha] at hrun
        exact Bool.noConfusion hrun
      · have ha' : rate.allowed = true := by
          cases hA : rate.allowed
          · exact absurd hA ha
          · rfl
        rcases hcb : (cbAttempts lb now attempts breakers lbs).2.2 with _ | ⟨b, cb⟩
        · simp only [runPipeline, if_neg hm, if_neg ha] at hrun
          rw [hcb] at hrun
          exact Bool.noConfusion hrun
        · refine ⟨ha', b, cb, ?_, rfl, ?_⟩
          · simp only [runPipeline, if_neg hm, if_neg ha]
            rw [hcb]
          · exact cbAttempts_admit lb now attempts breakers lbs b cb hcb
  · intro hm ha
    rw [runPipeline, if_neg hm, if_pos ha]
    exact ⟨rfl, rfl⟩
  · intro hm ha hnone
    have ha' : ¬ rate.allowed = false := by
      rw [ha]
      exact fun h => Bool.noConfusion h
    constructor
    · simp only [runPipeline, if_neg hm, if_neg ha']
      rw [hnone]
    · simp only [runPipeline, if_neg hm, if_neg ha']
      rw [hnone]

def demoOptions : CircuitBreakerOptions := ⟨5, 30000, 60000, 3⟩

def demoBreakers : String → CircuitBreaker := fun _ => { options := demoOptions }

def allowDecision : RateLimitResult := { allowed := true, limit := 5, remaining := 4 }

def denyDecision : RateLimitResult :=
  { allowed := false, limit := 5, remaining := 0, retryAfter := some 1 }

theorem claim_C6_admission_gating_witness :
    ((runPipeline "GET" denyDecision lcIface 2 demoBreakers 0
        (LeastConnectionsBalancer.new [backendA]) (.response 200)).status = 429 ∧
     (runPipeline "GET" denyDecision lcIface 2 demoBreakers 0
        (LeastConnectionsBalancer.new [backendA]) (.response 200)).proxyRan = false) ∧
    (allowDecision.allowed = true ∧
     ∃ b cb,
       (runPipeline "GET" allowDecision lcIface 2 demoBreakers 0
          (LeastConnectionsBalancer.new [backendA]) (.response 200)).backend = some b ∧
       (cbAttempts lcIface 0 2 demoBreakers
          (LeastConnectionsBalancer.new [backendA])).2.2 = some (b, cb) ∧
       ∃ (m : String → CircuitBreaker) (s0 : LeastConnectionsBalancer),
         lcIface.select s0 = (some b,
           (cbAttempts lcIface 0 2 demoBreakers
              (LeastConnectionsBalancer.new [backendA])).2.1) ∧
         (m b.name).canRequest 0 = (true, cb) ∧
         (cbAttempts lcIface 0 2 demoBreakers
            (LeastConnectionsBalancer.new [backendA])).1 = setFn m b.name cb) :=
  ⟨(claim_C6_admission_gating "GET" denyDecision lcIface 2 demoBreakers 0
      (LeastConnectionsBalancer.new [backendA]) (.response 200)).2.1 (by decide) rfl,
   (claim_C6_admission_gating "GET" allowDecision lcIface 2 demoBreakers 0
      (LeastConnectionsBalancer.new [backendA]) (.response 200)).1 rfl⟩

/-- The breaker registry for the C2 run: Backend-A's circuit is OPEN
(opened at t = 0, reset timeout 30000 ms), every other circuit CLOSED. -/
def c2Breakers : String → CircuitBreaker := fun n =>
  if n = "Backend-A" then { options := demoOptions, state := .OPEN, openedAt := 0 }
  else { options := demoOptions }

/-- C2: with Backend-A's circuit open at `now = 1000`, the least
connections balancer first selects Backend-A (incrementing its counter),
the breaker refuses it, and the selection loop moves on without calling
`onRequestComplete`; Backend-B is then selected, admitted, proxied, and
completed. After the request finishes on the terminal "upstream
response" path, Backend-A's active-connection counter is stuck at 1
while Backend-B's is back to 0: the refusal path breaks the
one-increment-one-completion match the specification asserts. -/
theorem claim_C2_unmatched_increment :
    (runPipeline "GET" allowDecision lcIface 2 c2Breakers 1000
        (LeastConnectionsBalancer.new [backendA, backendB]) (.response 200)).backend =
      some backendB ∧
    (runPipeline "GET" allowDecision lcIface 2 c2Breakers 1000
        (LeastConnectionsBalancer.new [backendA, backendB]) (.response 200)).lbState.connections
        (connectionKey backendA) = 1 ∧
    (runPipeline "GET" allowDecision lcIface 2 c2Breakers 1000
        (LeastConnectionsBalancer.new [backendA, backendB]) (.response 200)).lbState.connections
        (connectionKey backendB) = 0 := by
  refine ⟨?_, ?_, ?_⟩ <;> decide

end ApiGateway
